import Mathlib

/-!
Verification of the anime4k-wgpu pipeline compiler (crates/build).

This file gives a shallow embedding, in Lean 4, of the pipeline compiler of
the repository: the rational scale-factor parser (pipelines/pipeline_specs.rs),
the physical texture allocator (pipelines/physical_texture.rs), the lifetime
analysis and pipeline compilation (pipelines/executable_pipeline.rs), and the
mpv-hook parser and GLSL-to-WGSL convolution translator (cnn/convert.rs).
Text is modelled as `List Char`; Rust `u32` values are modelled as `Nat`
with explicit `< 2 ^ 32` bounds where the source checks for overflow; Rust
`HashMap`/`HashSet` are modelled as association lists with
insert-overwrites-and-lookup-finds-latest semantics; fallible Rust functions
return `Except`; Rust panics (indexing a map with a missing key, `unwrap`)
are modelled as an explicit `panic` error constructor.
-/

namespace A4K

/-- Text is modelled as a list of characters. -/
abbrev Str := List Char

/-- Character-level decimal digit test, mirroring the digits accepted by
Rust `u32::from_str` (ASCII `0`-`9`). -/
def isDigitChar (c : Char) : Bool :=
  48 ≤ c.toNat && c.toNat ≤ 57

/-- Numeric value of a list of decimal digit characters, most significant
first (the accumulator fold performed by Rust integer parsing). -/
def charsVal (cs : Str) : Nat :=
  cs.foldl (fun acc c => 10 * acc + (c.toNat - 48)) 0

/-- Helper for decimal formatting: prepends the decimal digits of `n` to
`acc`, mirroring the output of Rust `format!("\x7b\x7d", n)`. The first
argument is recursion fuel; any fuel exceeding `n` produces the digits. -/
def natToCharsF : Nat → Nat → List Char → List Char
  | 0, _, acc => acc
  | fuel + 1, n, acc =>
    if n < 10 then Char.ofNat (48 + n % 10) :: acc
    else natToCharsF fuel (n / 10) (Char.ofNat (48 + n % 10) :: acc)

/-- Decimal representation of a natural number, as emitted by Rust's
`Display` for unsigned integers. -/
def natToChars (n : Nat) : Str :=
  natToCharsF (n + 1) n []

/-- Drops one leading `+` sign if present, as Rust unsigned integer
parsing allows. -/
def stripPlus : Str → Str
  | [] => []
  | c :: r => if c = '+' then r else c :: r

/-- Model of Rust `u32::from_str`: an optional leading `+`, then one or more
ASCII digits whose value fits in 32 bits; anything else is a parse failure
(`none`). -/
def parseU32 (cs : Str) : Option Nat :=
  if stripPlus cs = [] then none
  else if (stripPlus cs).all isDigitChar then
    if charsVal (stripPlus cs) < 2 ^ 32 then some (charsVal (stripPlus cs))
    else none
  else none

/-- Splits a character list at every occurrence of the separator character,
mirroring Rust `str::split(c).collect::<Vec<_>>()` (the result always has
one more piece than there are separators; empty pieces are kept). -/
def splitChar (sep : Char) : Str → List Str
  | [] => [[]]
  | c :: rest =>
    if c = sep then [] :: splitChar sep rest
    else
      match splitChar sep rest with
      | [] => [[c]]
      | p :: ps => (c :: p) :: ps

/-- Model of Rust `str::lines()`: split on `\n`, drop a final empty piece
(so a trailing newline does not yield an extra empty line), and strip one
trailing `\r` from each line. -/
def stripCR (l : Str) : Str :=
  match l.getLast? with
  | some '\r' => l.dropLast
  | _ => l

/-- All lines of a source text, Rust `str::lines()` semantics. -/
def linesOf (s : Str) : List Str :=
  let pieces := splitChar '\n' s
  let pieces :=
    match pieces.getLast? with
    | some [] => pieces.dropLast
    | _ => pieces
  pieces.map stripCR

/-- Model of Rust `str::trim` restricted to ASCII whitespace (the sources
only contain ASCII): drops whitespace characters from both ends. -/
def isSpaceChar (c : Char) : Bool :=
  c = ' ' || c = '\t' || c = '\n' || c = '\r'

/-- Trim whitespace from both ends of a line, Rust `str::trim`. -/
def trimChars (s : Str) : Str :=
  ((s.dropWhile isSpaceChar).reverse.dropWhile isSpaceChar).reverse

/-- Tests whether `pre` is an initial segment of `s`
(Rust `str::starts_with`). -/
def startsWithLit (pre s : Str) : Bool :=
  match pre, s with
  | [], _ => true
  | _ :: _, [] => false
  | p :: ps, c :: cs => p = c && startsWithLit ps cs

/-- Removes a literal initial segment, failing when it is not there
(Rust `str::strip_prefix`). -/
def dropLit (pre s : Str) : Option Str :=
  match pre, s with
  | [], s => some s
  | _ :: _, [] => none
  | p :: ps, c :: cs => if p = c then dropLit ps cs else none

/-- Naive substring search (Rust `str::contains` with a literal pattern). -/
def containsSub (needle s : Str) : Bool :=
  match s with
  | [] => startsWithLit needle []
  | _ :: rest => startsWithLit needle s || containsSub needle rest

/-- The scale-factor fraction type of `pipeline_specs.rs` (`ScaleFactor`):
a numerator and denominator, compared by strict field-wise equality. -/
structure ScaleFactor where
  numerator : Nat
  denominator : Nat
deriving DecidableEq, Repr

/-- Constructor mirroring `ScaleFactor::new`. -/
def ScaleFactor.new (numerator denominator : Nat) : ScaleFactor :=
  ⟨numerator, denominator⟩

/-- Returns true when the scale factor equals one
(`ScaleFactor::is_unity`). -/
def ScaleFactor.isUnity (s : ScaleFactor) : Bool :=
  s.numerator = s.denominator

/-- The error type of `ScaleFactor::from_str`
(`ScaleFactorParseError`). -/
inductive ScaleFactorParseError where
  | invalidFormat
  | invalidNumerator
  | invalidDenominator
  | zeroDenominator
deriving DecidableEq, Repr

/-- Model of `ScaleFactor::from_str`: a string containing `/` must split
into exactly two `u32` pieces with nonzero denominator; otherwise the whole
string must be a `u32`, giving denominator 1. -/
def sfFromStr (s : Str) : Except ScaleFactorParseError ScaleFactor :=
  if s.contains '/' then
    if h : (splitChar '/' s).length = 2 then
      match parseU32 ((splitChar '/' s).get ⟨0, by omega⟩) with
      | none => .error .invalidNumerator
      | some numerator =>
        match parseU32 ((splitChar '/' s).get ⟨1, by omega⟩) with
        | none => .error .invalidDenominator
        | some denominator =>
          if denominator = 0 then .error .zeroDenominator
          else .ok (ScaleFactor.new numerator denominator)
    else .error .invalidFormat
  else
    match parseU32 s with
    | none => .error .invalidNumerator
    | some numerator => .ok (ScaleFactor.new numerator 1)

/-- Model of the `Display` implementation for `ScaleFactor`: a denominator
of 1 prints as a bare integer, otherwise as `numerator/denominator`. -/
def sfFormat (sf : ScaleFactor) : Str :=
  if sf.denominator = 1 then natToChars sf.numerator
  else natToChars sf.numerator ++ '/' :: natToChars sf.denominator

/-- Association-list model of a Rust `HashMap` keyed by strings: insertion
prepends, lookup returns the most recent insertion. -/
abbrev SMap := List (Str × Nat)

/-- Map lookup (`HashMap::get`), returning the most recently inserted value
for the key. -/
def mapGet (m : SMap) (k : Str) : Option Nat :=
  (m.find? (fun p => p.1 = k)).map (·.2)

/-- Map insertion (`HashMap::insert`): the new entry shadows any older
entry with the same key. -/
def mapIns (m : SMap) (k : Str) (v : Nat) : SMap :=
  (k, v) :: m

/-- The lifetime of one logical texture
(`physical_texture.rs::TextureLifetime`). -/
structure TextureLifetime where
  logical_id : Str
  components : Nat
  scale_factor : ScaleFactor × ScaleFactor
  created_at : Nat
  last_used_at : Nat
deriving DecidableEq, Repr

/-- A physical GPU texture (`physical_texture.rs::PhysicalTexture`). -/
structure PhysicalTexture where
  id : Nat
  components : Nat
  scale_factor : ScaleFactor × ScaleFactor
  is_source : Bool
deriving DecidableEq, Repr

/-- The reserved physical id of the SOURCE texture (`u32::MAX`). -/
def sourceTextureId : Nat := 4294967295

/-- The permanently reserved SOURCE physical texture pushed first by
`assign_physical_textures`. -/
def sourcePhysicalTexture : PhysicalTexture :=
  ⟨sourceTextureId, 4, (ScaleFactor.new 1 1, ScaleFactor.new 1 1), true⟩

/-- The reuse test of the allocator loop: the previous occupant's lifetime
has ended and components and scale factor match exactly. -/
def canReuse (existing lt : TextureLifetime) : Bool :=
  decide (existing.last_used_at < lt.created_at) &&
    decide (existing.components = lt.components) &&
    decide (existing.scale_factor = lt.scale_factor)

/-- The inner loop of `assign_physical_textures`: scan the slots in
ascending order for the first empty slot (`(i, false)`) or the first
occupied slot whose occupant can be reused (`(i, true)`). -/
def findSlot (lt : TextureLifetime) :
    List (Option TextureLifetime) → Option (Nat × Bool)
  | [] => none
  | none :: _ => some (0, false)
  | some existing :: rest =>
    if canReuse existing lt then some (0, true)
    else (findSlot lt rest).map (fun p => (p.1 + 1, p.2))

/-- The mutable state of `assign_physical_textures`: the physical texture
list built so far, the slot occupancy vector, and the logical-to-physical
assignment map. -/
structure AllocState where
  physical_textures : List PhysicalTexture
  slots : List (Option TextureLifetime)
  assignments : SMap
deriving Repr

/-- One iteration of the outer loop of `assign_physical_textures` for one
lifetime: reuse or take the first available slot, else allocate a fresh
slot with the next sequential id; push a new `PhysicalTexture` entry unless
an occupied slot was reused; record the assignment. Returns the new state
and the physical id assigned to this lifetime. -/
def allocStep (st : AllocState) (lt : TextureLifetime) : AllocState × Nat :=
  match findSlot lt st.slots with
  | some (i, reused) =>
    let phys' :=
      if reused then st.physical_textures
      else st.physical_textures ++ [⟨i, lt.components, lt.scale_factor, false⟩]
    (⟨phys', st.slots.set i (some lt), mapIns st.assignments lt.logical_id i⟩, i)
  | none =>
    let i := st.slots.length
    (⟨st.physical_textures ++ [⟨i, lt.components, lt.scale_factor, false⟩],
      st.slots ++ [some lt], mapIns st.assignments lt.logical_id i⟩, i)

/-- The outer loop of `assign_physical_textures`, additionally returning
the per-lifetime assigned physical ids (the data the assignment map records
for each processed lifetime, kept as an explicit list so that claims about
"two logical textures assigned the same physical id" quantify over the
processed lifetimes themselves). -/
def allocLoop (st : AllocState) :
    List TextureLifetime → AllocState × List (TextureLifetime × Nat)
  | [] => (st, [])
  | lt :: rest =>
    let p := allocStep st lt
    let q := allocLoop p.1 rest
    (q.1, (lt, p.2) :: q.2)

/-- The initial allocator state: the SOURCE texture is reserved with the
sentinel id before any lifetime is processed. -/
def allocInit : AllocState :=
  ⟨[sourcePhysicalTexture], [], [("SOURCE".data, sourceTextureId)]⟩

/-- Model of `assign_physical_textures`: the physical texture list and the
logical-to-physical assignment map. -/
def assignPhysicalTextures (lts : List TextureLifetime) :
    List PhysicalTexture × SMap :=
  let r := allocLoop allocInit lts
  (r.1.physical_textures, r.1.assignments)

/-- The per-lifetime physical id assignments made by
`assign_physical_textures`, in processing order. -/
def assignedPairs (lts : List TextureLifetime) : List (TextureLifetime × Nat) :=
  (allocLoop allocInit lts).2

/-- Binding of a logical texture to a shader binding slot
(`pipeline_specs.rs::TextureBindingSpec`). -/
structure TextureBindingSpec where
  id : Str
  binding : Nat
deriving DecidableEq, Repr

/-- Sampler filtering modes (`pipeline_specs.rs::SamplerFilterMode`). -/
inductive SamplerFilterMode where
  | nearest
  | linear
deriving DecidableEq, Repr

/-- Binding of a sampler to a shader binding slot
(`pipeline_specs.rs::SamplerBinding`). -/
structure SamplerBinding where
  binding : Nat
  filter_mode : SamplerFilterMode
deriving DecidableEq, Repr

/-- Output texture specification of a pass
(`pipeline_specs.rs::TextureOutput`); the two-element `scale_factor` array
is modelled as a pair. -/
structure TextureOutput where
  id : Str
  binding : Nat
  components : Nat
  scale_factor : ScaleFactor × ScaleFactor
deriving DecidableEq, Repr

/-- A single pass of a pipeline manifest (`pipeline_specs.rs::Pass`). -/
structure Pass where
  id : Str
  file : Str
  inputs : List TextureBindingSpec
  outputs : List TextureOutput
  samplers : List SamplerBinding
deriving DecidableEq, Repr

/-- A raw pipeline manifest (`pipeline_specs.rs::PipelineSpec`). -/
structure PipelineSpec where
  id : Str
  name : Str
  description : Option Str
  passes : List Pass
deriving DecidableEq, Repr

/-- The validation error type
(`executable_pipeline.rs::PipelineValidationError`). -/
inductive PipelineValidationError where
  | emptyId
  | emptyName
  | noPasses
  | passMissingInputs (passIdx : Nat)
  | passMissingOutputs (passIdx : Nat)
  | duplicateBinding (passIdx : Nat) (binding : Nat)
  | resultNotInLastPass (passIdx : Nat)
  | textureOverwritten (passIdx : Nat) (id : Str)
  | inputTextureNotFound (passIdx : Nat) (id : Str)
deriving DecidableEq, Repr

/-- First pass (by index) violating the has-inputs/has-outputs rule. -/
def validateInOut : Nat → List Pass → Except PipelineValidationError Unit
  | _, [] => .ok ()
  | i, p :: rest =>
    if p.inputs.isEmpty then .error (.passMissingInputs i)
    else if p.outputs.isEmpty then .error (.passMissingOutputs i)
    else validateInOut (i + 1) rest

/-- Walks a list of binding slots, inserting each into the used set and
failing on the first duplicate, mirroring the `HashSet::insert` checks. -/
def checkBindings (i : Nat) (used : List Nat) :
    List Nat → Except PipelineValidationError (List Nat)
  | [] => .ok used
  | b :: rest =>
    if used.contains b then .error (.duplicateBinding i b)
    else checkBindings i (b :: used) rest

/-- Binding-slot uniqueness within one pass, across
inputs, then outputs, then samplers, in the order the source checks them. -/
def validatePassBindings (i : Nat) (p : Pass) :
    Except PipelineValidationError Unit := do
  let u ← checkBindings i [] (p.inputs.map (·.binding))
  let u ← checkBindings i u (p.outputs.map (·.binding))
  let _ ← checkBindings i u (p.samplers.map (·.binding))
  .ok ()

/-- Binding-slot uniqueness for every pass. -/
def validateBindings : Nat → List Pass → Except PipelineValidationError Unit
  | _, [] => .ok ()
  | i, p :: rest => do
    let _ ← validatePassBindings i p
    validateBindings (i + 1) rest

/-- The RESULT-only-in-last-pass rule: `total` is the number of passes. -/
def validateResult (total : Nat) : Nat → List Pass →
    Except PipelineValidationError Unit
  | _, [] => .ok ()
  | i, p :: rest =>
    if (p.outputs.any (fun o => o.id = "RESULT".data && decide (i ≠ total - 1))) then
      .error (.resultNotInLastPass i)
    else validateResult total (i + 1) rest

/-- Walks one pass's outputs against the set of already created texture
ids, failing on the first overwrite and inserting each new id. -/
def checkOverwrite (i : Nat) (created : List Str) :
    List TextureOutput → Except PipelineValidationError (List Str)
  | [] => .ok created
  | o :: rest =>
    if created.contains o.id then .error (.textureOverwritten i o.id)
    else checkOverwrite i (o.id :: created) rest

/-- The no-texture-overwritten rule; the created set is pre-seeded with
SOURCE. -/
def validateOverwrite (created : List Str) : Nat → List Pass →
    Except PipelineValidationError Unit
  | _, [] => .ok ()
  | i, p :: rest => do
    let created' ← checkOverwrite i created p.outputs
    validateOverwrite created' (i + 1) rest

/-- The every-input-already-produced rule; the available set is pre-seeded
with SOURCE and grows with each pass's outputs. -/
def validateInputsExist (available : List Str) : Nat → List Pass →
    Except PipelineValidationError Unit
  | _, [] => .ok ()
  | i, p :: rest =>
    match p.inputs.find? (fun inp => !available.contains inp.id) with
    | some inp => .error (.inputTextureNotFound i inp.id)
    | none =>
      validateInputsExist (p.outputs.map (·.id) ++ available) (i + 1) rest

/-- Model of `PipelineSpec::validate`: the checks run in source order and
the first violated rule's error is returned. -/
def PipelineSpec.validate (spec : PipelineSpec) :
    Except PipelineValidationError Unit :=
  if spec.id.isEmpty then .error .emptyId
  else if spec.name.isEmpty then .error .emptyName
  else if spec.passes.isEmpty then .error .noPasses
  else
    match validateInOut 0 spec.passes with
    | .error e => .error e
    | .ok _ =>
      match validateBindings 0 spec.passes with
      | .error e => .error e
      | .ok _ =>
        match validateResult spec.passes.length 0 spec.passes with
        | .error e => .error e
        | .ok _ =>
          match validateOverwrite ["SOURCE".data] 0 spec.passes with
          | .error e => .error e
          | .ok _ => validateInputsExist ["SOURCE".data] 0 spec.passes

/-- Whether pass `p` reads texture `id` as an input. -/
def passReads (p : Pass) (id : Str) : Bool :=
  p.inputs.any (fun inp => inp.id = id)

/-- The forward scan of `collect_texture_lifetimes`: the greatest pass
index at or after `start` reading `id`, defaulting to `default` when none
does. `start` enumerates the passes after the creating pass. -/
def lastUseScan (id : Str) (default : Nat) (start : Nat) :
    List Pass → Nat
  | [] => default
  | p :: rest =>
    let d := if passReads p id then start else default
    lastUseScan id d (start + 1) rest

/-- Lifetime records contributed by the outputs of the pass at index `i`,
skipping SOURCE outputs; `later` is the list of passes after it. -/
def passLifetimes (i : Nat) (later : List Pass) (outs : List TextureOutput) :
    List TextureLifetime :=
  (outs.filter (fun o => o.id ≠ "SOURCE".data)).map fun o =>
    ⟨o.id, o.components, o.scale_factor, i, lastUseScan o.id i (i + 1) later⟩

/-- The per-pass enumeration of `collect_texture_lifetimes`, before the
final sort. -/
def rawLifetimes (i : Nat) : List Pass → List TextureLifetime
  | [] => []
  | p :: rest => passLifetimes i rest p.outputs ++ rawLifetimes (i + 1) rest

/-- Stable insertion used to model Rust's stable `sort_by_key`: the
inserted element precedes every element with the same key, because those
elements originally came after it. -/
def insertByCreated (lt : TextureLifetime) :
    List TextureLifetime → List TextureLifetime
  | [] => [lt]
  | x :: xs =>
    if lt.created_at ≤ x.created_at then lt :: x :: xs
    else x :: insertByCreated lt xs

/-- Stable sort by `created_at`, modelling `sort_by_key` (any stable sort
is observationally the same; the input is already nondecreasing in
`created_at`, so the sort is the identity, which is proved below). -/
def sortByCreated : List TextureLifetime → List TextureLifetime
  | [] => []
  | x :: xs => insertByCreated x (sortByCreated xs)

/-- Model of `PipelineCompiler::collect_texture_lifetimes`. -/
def collectTextureLifetimes (spec : PipelineSpec) : List TextureLifetime :=
  sortByCreated (rawLifetimes 0 spec.passes)

/-- Whether the pass at index `j` (absolute) reads texture `id`. -/
def readsAt (spec : PipelineSpec) (j : Nat) (id : Str) : Bool :=
  match spec.passes[j]? with
  | some p => passReads p id
  | none => false

/-- The specification-side characterization of a lifetime end: `u` is the
greatest pass index after the creating pass `c` at which `id` is read as
an input, defaulting to `c` itself when no later pass reads it. -/
def isLastUse (spec : PipelineSpec) (c : Nat) (id : Str) (u : Nat) : Prop :=
  c ≤ u ∧ (u = c ∨ readsAt spec u id = true) ∧
    ∀ j, j < spec.passes.length → readsAt spec j id = true → c < j → j ≤ u

/-- The non-SOURCE output occurrences of a pipeline, as (id, pass index)
pairs in pass order. -/
def outputOccurrences (spec : PipelineSpec) : List (Str × Nat) :=
  spec.passes.enum.flatMap fun ip =>
    (ip.2.outputs.filter (fun o => o.id ≠ "SOURCE".data)).map fun o => (o.id, ip.1)

/-- The non-SOURCE output identifiers of a pipeline, one per occurrence,
in pass order. -/
def occIds (spec : PipelineSpec) : List Str :=
  spec.passes.flatMap fun p =>
    (p.outputs.filter (fun o => o.id ≠ "SOURCE".data)).map (·.id)

/-- All output identifiers of a pass list, one per occurrence. -/
def allOutputIds (ps : List Pass) : List Str :=
  ps.flatMap fun p => p.outputs.map (·.id)

/-- Resolved binding of one texture of an executable pass
(`executable_pipeline.rs::PhysicalTextureBinding`). -/
structure PhysicalTextureBinding where
  logical_id : Str
  physical_id : Nat
  binding : Nat
  components : Nat
  scale_factor : ScaleFactor × ScaleFactor
deriving DecidableEq, Repr

/-- One compiled pass (`executable_pipeline.rs::ExecutablePass`); the
floating-point `compute_scale_factors` field is kept as the exact pair of
rational scale factors it is computed from. -/
structure ExecutablePass where
  id : Str
  shader : Str
  compute_scale_factors : ScaleFactor × ScaleFactor
  input_textures : List PhysicalTextureBinding
  output_textures : List PhysicalTextureBinding
  samplers : List SamplerBinding
deriving DecidableEq, Repr

/-- A compiled pipeline (`executable_pipeline.rs::ExecutablePipeline`). -/
structure ExecutablePipeline where
  id : Str
  name : Str
  description : Option Str
  physical_textures : List PhysicalTexture
  passes : List ExecutablePass
  required_samplers : List SamplerFilterMode
deriving DecidableEq, Repr

/-- Compilation outcome classification: an untyped Rust panic (map indexing
with a missing key, `unwrap` on `None`) or a propagated loader error. -/
inductive CompileErr (ε : Type) where
  | panic
  | io (e : ε)
deriving DecidableEq, Repr

/-- Model of `PipelineCompiler::find_physical_texture_info`: SOURCE is
hardcoded, otherwise the first pass output with the given id is used, with
a 4-component unity-scale fallback. -/
def findPhysicalTextureInfo (passes : List Pass) (logicalId : Str) :
    Nat × (ScaleFactor × ScaleFactor) :=
  if logicalId = "SOURCE".data then
    (4, (ScaleFactor.new 1 1, ScaleFactor.new 1 1))
  else
    match passes.findSome? (fun p => p.outputs.find? (fun o => o.id = logicalId)) with
    | some o => (o.components, o.scale_factor)
    | none => (4, (ScaleFactor.new 1 1, ScaleFactor.new 1 1))

/-- Resolves the input bindings of one pass; `none` models the Rust panic
on `texture_assignments[&input.id]` when the key is missing. -/
def resolveInputs (passes : List Pass) (assigns : SMap) :
    List TextureBindingSpec → Option (List PhysicalTextureBinding)
  | [] => some []
  | inp :: rest => do
    let physicalId ← mapGet assigns inp.id
    let info := findPhysicalTextureInfo passes inp.id
    let tail ← resolveInputs passes assigns rest
    pure (⟨inp.id, physicalId, inp.binding, info.1, info.2⟩ :: tail)

/-- Resolves the output bindings of one pass; `none` models the Rust panic
on `texture_assignments[&output.id]` when the key is missing. -/
def resolveOutputs (assigns : SMap) :
    List TextureOutput → Option (List PhysicalTextureBinding)
  | [] => some []
  | o :: rest => do
    let physicalId ← mapGet assigns o.id
    let tail ← resolveOutputs assigns rest
    pure (⟨o.id, physicalId, o.binding, o.components, o.scale_factor⟩ :: tail)

/-- Compiles one pass, also returning the list of shader files the loader
was invoked on (the call log: empty when a panic occurs before the loader
is reached, a singleton once the loader has been called). Field evaluation
order follows the source: inputs, outputs, the `first().unwrap()` on the
outputs, then the loader call. -/
def buildPass {ε : Type} (passes : List Pass) (assigns : SMap)
    (loader : Str → Except ε Str) (p : Pass) :
    Except (CompileErr ε) ExecutablePass × List Str :=
  match resolveInputs passes assigns p.inputs with
  | none => (.error .panic, [])
  | some ins =>
    match resolveOutputs assigns p.outputs with
    | none => (.error .panic, [])
    | some outs =>
      match p.outputs.head? with
      | none => (.error .panic, [])
      | some firstOutput =>
        match loader p.file with
        | .error e => (.error (.io e), [p.file])
        | .ok shaderText =>
          (.ok ⟨p.id, shaderText, firstOutput.scale_factor, ins, outs,
              p.samplers⟩, [p.file])

/-- Model of `create_executable_passes`: passes are compiled in order and
the first failure aborts; the loader call log is accumulated in call
order. -/
def buildPasses {ε : Type} (passes : List Pass) (assigns : SMap)
    (loader : Str → Except ε Str) :
    List Pass → Except (CompileErr ε) (List ExecutablePass) × List Str
  | [] => (.ok [], [])
  | p :: rest =>
    match buildPass passes assigns loader p with
    | (.error e, log) => (.error e, log)
    | (.ok ep, log) =>
      match buildPasses passes assigns loader rest with
      | (r, log') => (r.map (ep :: ·), log ++ log')

/-- The deduplicated, insertion-ordered sampler filter modes referenced by
any pass. -/
def collectSamplers (acc : List SamplerFilterMode) :
    List SamplerFilterMode → List SamplerFilterMode
  | [] => acc
  | m :: rest =>
    if acc.contains m then collectSamplers acc rest
    else collectSamplers (acc ++ [m]) rest

/-- The `required_samplers` list built by `PipelineCompiler::compile`. -/
def requiredSamplers (spec : PipelineSpec) : List SamplerFilterMode :=
  collectSamplers [] (spec.passes.flatMap (fun p => p.samplers.map (·.filter_mode)))

/-- Model of `PipelineSpec::compile` (through `PipelineCompiler::compile`),
paired with the loader call log: lifetime analysis, physical allocation,
pass compilation, sampler collection. Note the source never calls
`validate` here. -/
def compileWithLog {ε : Type} (spec : PipelineSpec)
    (loader : Str → Except ε Str) :
    Except (CompileErr ε) ExecutablePipeline × List Str :=
  let lifetimes := collectTextureLifetimes spec
  let alloc := assignPhysicalTextures lifetimes
  match buildPasses spec.passes alloc.2 loader spec.passes with
  | (.error e, log) => (.error e, log)
  | (.ok eps, log) =>
    (.ok ⟨spec.id, spec.name, spec.description, alloc.1, eps,
        requiredSamplers spec⟩, log)

/-- Model of `PipelineSpec::compile`, result only. -/
def PipelineSpec.compile {ε : Type} (spec : PipelineSpec)
    (loader : Str → Except ε Str) :
    Except (CompileErr ε) ExecutablePipeline :=
  (compileWithLog spec loader).1

/-- Word character of the regex `\w` class (the sources are ASCII). -/
def isWordChar (c : Char) : Bool :=
  c.isAlphanum || c = '_'

/-- Greedy `\w+`: the longest nonempty prefix of word characters (used
where the following literal is not a word character, so greed is
unambiguous). -/
def takeWord1 (s : Str) : Option (Str × Str) :=
  let w := s.takeWhile isWordChar
  if w.isEmpty then none else some (w, s.drop w.length)

/-- Greedy `\d+`: the longest nonempty prefix of decimal digits. -/
def takeDigits1 (s : Str) : Option (Str × Str) :=
  let w := s.takeWhile isDigitChar
  if w.isEmpty then none else some (w, s.drop w.length)

/-- All nonempty word-character prefixes of `s` with their suffixes,
longest first: the backtracking order of a greedy `\w+` followed by more
pattern. -/
def wordSplits (s : Str) : List (Str × Str) :=
  let n := (s.takeWhile isWordChar).length
  (List.range n).map (fun j => (s.take (n - j), s.drop (n - j)))

/-- Matcher for the WIDTH/HEIGHT directive regex of `MpvHook::new`,
`^//!(?:WIDTH|HEIGHT) (\w+)\.[wh](?: (\d+) \*)?$`: returns the base
texture name and, when the ratio group is present, its digit string. -/
def matchScaleDir (l : Str) : Option (Str × Option Str) := do
  let r1 ←
    match dropLit "//!WIDTH ".data l with
    | some r => some r
    | none => dropLit "//!HEIGHT ".data l
  let (nm, r2) ← takeWord1 r1
  match r2 with
  | '.' :: wh :: r3 =>
    if wh = 'w' || wh = 'h' then
      match r3 with
      | [] => some (nm, none)
      | _ => do
        let r4 ← dropLit " ".data r3
        let (ds, r5) ← takeDigits1 r4
        if r5 = " *".data then some (nm, some ds) else none
    else none
  | _ => none

/-- The stage classification of a hook (`ConvolutionStageType`). -/
inductive ConvolutionStageType where
  | conv
  | depthToSpace
deriving DecidableEq, Repr

/-- A parsed mpv hook (`convert.rs::MpvHook`); the accumulated GLSL code
body is kept as its list of lines. -/
structure MpvHook where
  name : Str
  scale_factor : Nat
  needs_sampler : Bool
  needs_bound : Bool
  inputs : List Str
  output : Str
  type : ConvolutionStageType
  code : List Str
deriving DecidableEq, Repr

/-- The failures of hook parsing and GLSL-to-WGSL translation. In the
source these are `std::io::Error` values with distinct messages; here each
distinct message is a constructor carrying the same identifying data. -/
inductive HookErr where
  | invalidScaleLine
  | unknownBaseTexture
  | inconsistentScale
  | unsupportedHookType
  | unsupportedComponents
  | unknownStageType
  | noName
  | noInputs
  | noOutput
  | noScaleFactor
  | unknownInputTexture (name : Str)
  | ratioOverflowPanic
  | unknownTexture (name : Str)
  | fractionForSameScale
  | missingFraction
  | nonOffsetDifferentScale
  | unknownFunction (name : Str)
  | unexpectedLine (passName : Str) (line : Str)
deriving DecidableEq, Repr

/-- The accumulating state of the directive loop of `MpvHook::new`. -/
structure DirState where
  name : Str
  scale_factor : Nat
  inputs : List Str
  output : Str
  code : List Str
deriving DecidableEq, Repr

/-- The numeric value of the optional captured ratio digit group of a
WIDTH/HEIGHT directive, defaulting to 1 when the group is absent. -/
def ratioNat : Option Str → Nat
  | some ds => charsVal ds
  | none => 1

/-- One line of the directive loop of `MpvHook::new`, in the branch order
of the source: DESC, WIDTH/HEIGHT, BIND, SAVE, HOOK, COMPONENTS, WHEN,
else code. The scale map `m` is read, never written, during the loop. The
`unwrap` of the captured ratio is modelled by the overflow-panic branch,
and `u32` multiplication wraps. -/
def dirStep (m : SMap) (st : DirState) (line : Str) : Except HookErr DirState :=
  match dropLit "//!DESC ".data line with
  | some content => .ok { st with name := trimChars content }
  | none =>
  if startsWithLit "//!WIDTH ".data line || startsWithLit "//!HEIGHT ".data line then
    match matchScaleDir line with
    | none => .error .invalidScaleLine
    | some (baseName, ratioDigits) =>
      if ratioNat ratioDigits ≥ 2 ^ 32 then .error .ratioOverflowPanic
      else
        match mapGet m baseName with
        | none => .error .unknownBaseTexture
        | some base =>
          if st.scale_factor = 0 then
            .ok { st with scale_factor := (base * ratioNat ratioDigits) % 2 ^ 32 }
          else if st.scale_factor ≠ (base * ratioNat ratioDigits) % 2 ^ 32 then
            .error .inconsistentScale
          else .ok st
  else
  match dropLit "//!BIND ".data line with
  | some content =>
    let nm := trimChars content
    let nm := if nm = "MAIN".data then "source".data else nm
    .ok { st with inputs := st.inputs ++ [nm] }
  | none =>
  match dropLit "//!SAVE ".data line with
  | some content =>
    let nm := trimChars content
    let nm := if nm = "MAIN".data then "dest".data else nm
    .ok { st with output := nm }
  | none =>
  match dropLit "//!HOOK ".data line with
  | some content =>
    if trimChars content ≠ "MAIN".data then .error .unsupportedHookType else .ok st
  | none =>
  match dropLit "//!COMPONENTS ".data line with
  | some content =>
    if trimChars content ≠ "4".data then .error .unsupportedComponents else .ok st
  | none =>
  if startsWithLit "//!WHEN ".data line then .ok st
  else .ok { st with code := st.code ++ [line] }

/-- The directive loop of `MpvHook::new` over all source lines. -/
def dirLoop (m : SMap) (st : DirState) : List Str → Except HookErr DirState
  | [] => .ok st
  | l :: rest =>
    match dirStep m st l with
    | .error e => .error e
    | .ok st' => dirLoop m st' rest

/-- The needs-sampler/needs-bound derivation of `MpvHook::new`: an input
with the pass's own scale sets `needs_bound`, an input with a different
scale sets `needs_sampler`, an unregistered input is an error. -/
def needsFlags (m : SMap) (sf : Nat) :
    List Str → Bool → Bool → Except HookErr (Bool × Bool)
  | [], ns, nb => .ok (ns, nb)
  | inp :: rest, ns, nb =>
    match mapGet m inp with
    | none => .error (.unknownInputTexture inp)
    | some isf =>
      if isf = sf then needsFlags m sf rest ns true
      else needsFlags m sf rest true nb

/-- Model of `MpvHook::new`: the directive loop, the stage classification,
the emptiness and scale checks, the needs flags, and finally the output's
registration in the scale map. The (possibly updated) scale map is
returned alongside the result, mirroring the `&mut HashMap` parameter. -/
def MpvHookNew (source : Str) (m : SMap) : Except HookErr MpvHook × SMap :=
  match dirLoop m ⟨[], 0, [], [], []⟩ (linesOf source) with
  | .error e => (.error e, m)
  | .ok st =>
    let tyR : Except HookErr ConvolutionStageType :=
      if containsSub "-Conv-".data st.name then .ok .conv
      else if containsSub "-Depth-to-Space".data st.name then .ok .depthToSpace
      else .error .unknownStageType
    match tyR with
    | .error e => (.error e, m)
    | .ok ty =>
      if st.name.isEmpty then (.error .noName, m)
      else if st.inputs.isEmpty then (.error .noInputs, m)
      else if st.output.isEmpty then (.error .noOutput, m)
      else if st.scale_factor = 0 then (.error .noScaleFactor, m)
      else
        match needsFlags m st.scale_factor st.inputs false false with
        | .error e => (.error e, m)
        | .ok flags =>
          (.ok ⟨st.name, st.scale_factor, flags.1, flags.2, st.inputs,
              st.output, ty, st.code⟩,
            mapIns m st.output st.scale_factor)

/-- Captures of the GO-macro regex of `convert_conv_hook_code`,
`^#define (?<name>\w+)\(x_off, y_off\) \((?:max\((?<sign>-?)\()?
(?<texture>\w+)_texOff\(vec2\(x_off, y_off\)(?: \* (?<fraction>0\.\d+))?\)
(?:\), 0.0\))?\)$`. The `sign` capture exists (as the empty string or "-")
exactly when the rectification wrapper group matched. -/
structure GoCaps where
  name : Str
  sign : Option Str
  texture : Str
  fraction : Option Str
deriving DecidableEq, Repr

/-- Tail of the GO-macro regex after the `vec2(...)` argument and optional
fraction: a closing paren, an optional `), 0.0)` rectification closer, and
a final closing paren at end of line. -/
def goTailOk (r : Str) : Bool :=
  match dropLit ")".data r with
  | none => false
  | some r8 =>
    (match dropLit "), 0.0)".data r8 with
     | some r9 => r9 = ")".data
     | none => false) || r8 = ")".data

/-- Core of the GO-macro regex from the texture name on: a greedy word
with backtracking (tried longest first), the `_texOff(vec2(x_off, y_off)`
literal, and an optional ` * 0.digits` fraction (tried present first). -/
def goCore (r : Str) : Option (Str × Option Str) :=
  (wordSplits r).findSome? fun p =>
    match dropLit "_texOff(vec2(x_off, y_off)".data p.2 with
    | none => none
    | some r6 =>
      let withFrac : Option (Str × Option Str) := do
        let r7 ← dropLit " * 0.".data r6
        let q ← takeDigits1 r7
        if goTailOk q.2 then some (p.1, some ('0' :: '.' :: q.1)) else none
      match withFrac with
      | some res => some res
      | none => if goTailOk r6 then some (p.1, none) else none

/-- The optional `max((-?)(` rectification opener of the GO-macro regex:
returns the sign capture and the remaining text. A `-` is consumed when
present (the following literal `(` disambiguates). -/
def goPre (r : Str) : Option (Str × Str) :=
  match dropLit "max(".data r with
  | none => none
  | some r4 =>
    match r4 with
    | '-' :: r5 =>
      match dropLit "(".data r5 with
      | some r6 => some ("-".data, r6)
      | none => none
    | _ =>
      match dropLit "(".data r4 with
      | some r6 => some ([], r6)
      | none => none

/-- Matcher for the GO-macro regex (offset-accessor macro definition). The
rectification wrapper is tried present first, mirroring greedy optional
groups. -/
def matchGoMacro (l : Str) : Option GoCaps := do
  let r1 ← dropLit "#define ".data l
  let (nm, r2) ← takeWord1 r1
  let r3 ← dropLit "(x_off, y_off) (".data r2
  let withPre : Option GoCaps :=
    match goPre r3 with
    | some sg => (goCore sg.2).map fun c => ⟨nm, some sg.1, c.1, c.2⟩
    | none => none
  match withPre with
  | some caps => some caps
  | none => (goCore r3).map fun c => ⟨nm, none, c.1, c.2⟩

/-- Matcher for the rectified same-scale accessor macro regex,
`^#define (?<name>\w+) \(max\((?<sign>-?)\((?<texture>\w+)_tex\(\w+\)\),
0.0\)\)$`: returns (name, sign, texture). -/
def matchGMacroRelu (l : Str) : Option (Str × Str × Str) := do
  let r1 ← dropLit "#define ".data l
  let (nm, r2) ← takeWord1 r1
  let r3 ← dropLit " (max(".data r2
  let (sg, r4) :=
    match r3 with
    | '-' :: r4 => ("-".data, r4)
    | _ => (([] : Str), r3)
  let r5 ← dropLit "(".data r4
  (wordSplits r5).findSome? fun p => do
    let r6 ← dropLit "_tex(".data p.2
    let (_, r7) ← takeWord1 r6
    if r7 = ")), 0.0))".data then some (nm, sg, p.1) else none

/-- The entry-point opener line `vec4 hook() {`. -/
def isEntryBegin (l : Str) : Bool :=
  l = "vec4 hook() \x7b".data

/-- The entry-point closer line `}`. -/
def isEntryEnd (l : Str) : Bool :=
  l = "\x7d".data

/-- Captures of the accumulation-statement regex,
`^(?<decl>vec4 )?result \+?= mat4\((?<weights>[^)]+)\) \* (?<func>\w+)
(?:\((?<x_offset>1|0|-1)\.0, (?<y_offset>1|0|-1)\.0\))?;$`. -/
structure ProdCaps where
  decl : Bool
  weights : Str
  func : Str
  offsets : Option (Str × Str)
deriving DecidableEq, Repr

/-- The `1|0|-1` offset alternation followed by `.0` and a separator. -/
def takeOffCap (sep : Str) (r : Str) : Option (Str × Str) :=
  match dropLit ("1.0".data ++ sep) r with
  | some rest => some ("1".data, rest)
  | none =>
    match dropLit ("0.0".data ++ sep) r with
    | some rest => some ("0".data, rest)
    | none =>
      match dropLit ("-1.0".data ++ sep) r with
      | some rest => some ("-1".data, rest)
      | none => none

/-- Matcher for the accumulation statement from `result ` on (after the
optional `vec4 ` declarator has been handled by the caller). -/
def prodCore (hasDecl : Bool) (r : Str) : Option ProdCaps := do
  let r1 ← dropLit "result ".data r
  let r2 ←
    match r1 with
    | '+' :: r2 => dropLit "= mat4(".data r2
    | _ => dropLit "= mat4(".data r1
  let w := r2.takeWhile (fun c => c ≠ ')')
  if w.isEmpty then none
  else do
    let r3 ← dropLit ") * ".data (r2.drop w.length)
    let (func, r4) ← takeWord1 r3
    let withOffs : Option ProdCaps := do
      let r5 ← dropLit "(".data r4
      let (xo, r6) ← takeOffCap ", ".data r5
      let (yo, r7) ← takeOffCap ")".data r6
      if r7 = ";".data then some ⟨hasDecl, w, func, some (xo, yo)⟩ else none
    match withOffs with
    | some caps => some caps
    | none => if r4 = ";".data then some ⟨hasDecl, w, func, none⟩ else none

/-- Matcher for the accumulation-statement regex. -/
def matchResultAddProd (l : Str) : Option ProdCaps :=
  match dropLit "vec4 ".data l with
  | some r =>
    match prodCore true r with
    | some caps => some caps
    | none => prodCore false l
  | none => prodCore false l

/-- Matcher for the bias-addition regex,
`^result \+= vec4\((?<weights>[^)]+)\);$`. -/
def matchResultAddVec (l : Str) : Option Str := do
  let r1 ← dropLit "result += vec4(".data l
  let w := r1.takeWhile (fun c => c ≠ ')')
  if w.isEmpty then none
  else if r1.drop w.length = ");".data then some w else none

/-- The plain return line `return result;`. -/
def isReturnAsIs (l : Str) : Bool :=
  l = "return result;".data

/-- Matcher for the residual-return regex,
`^return result(?<factor>(?: \* 0\.\d+)?) \+ MAIN_tex\(MAIN_pos\);$`:
returns the factor capture (empty, or ` * 0.digits` with its leading
space). -/
def matchReturnOverlay (l : Str) : Option Str := do
  let r1 ← dropLit "return result".data l
  let withFactor : Option Str := do
    let r2 ← dropLit " * 0.".data r1
    let (ds, r3) ← takeDigits1 r2
    if r3 = " + MAIN_tex(MAIN_pos);".data then
      some (" * 0.".data ++ ds)
    else none
  match withFactor with
  | some f => some f
  | none =>
    if r1 = " + MAIN_tex(MAIN_pos);".data then some [] else none

/-- Whether a (trimmed) body line is recognized by the convolution
translator: a macro definition, an entry-point line, an accumulation, a
bias addition, a return statement, a comment, or a blank line. -/
def recognizedConvLine (l : Str) : Bool :=
  (matchGoMacro l).isSome || (matchGMacroRelu l).isSome ||
    isEntryBegin l || isEntryEnd l || (matchResultAddProd l).isSome ||
    (matchResultAddVec l).isSome || isReturnAsIs l ||
    (matchReturnOverlay l).isSome || startsWithLit "//".data l || l.isEmpty

/-- The state of the translation loop of `convert_conv_hook_code`: the
WGSL lines emitted so far and the accessor-function-to-scale-factor map. -/
structure ConvState where
  code : List Str
  fmap : SMap
deriving DecidableEq, Repr

/-- The WGSL lines generated for a GO-macro definition. -/
def goMacroLines (funcName textureName : Str) (sign : Option Str)
    (fraction : Option Str) : List Str :=
  (match fraction with
   | some frac =>
     ["fn ".data ++ funcName ++ "(uv_pos: vec2f, offset: vec2i) -> vec4f \x7b".data,
      "    let coords = uv_pos + vec2f(offset) * ".data ++ frac ++
        " / vec2f(textureDimensions(".data ++ textureName ++ "_tex));".data,
      "    let value = textureSampleLevel(".data ++ textureName ++
        "_tex, input_sampler, coords, 0.0);".data]
   | none =>
     ["fn ".data ++ funcName ++ "(pos: vec2i) -> vec4f \x7b".data,
      "    let value = textureLoad(".data ++ textureName ++ "_tex, pos, 0);".data]) ++
  (match sign with
   | some sg => ["    return max(".data ++ sg ++ "value, vec4f());".data]
   | none => ["    return value;".data]) ++
  ["\x7d".data, "".data]

/-- The WGSL lines generated for the two compute entry points and the
shared per-pixel `process` opener. -/
def entryPointLines (outputTexture : Str) : List Str :=
  ["@compute @workgroup_size(8, 8)".data,
   "fn main(@builtin(global_invocation_id) pixel: vec3u) \x7b".data,
   "    let out_dim: vec2u = textureDimensions(".data ++ outputTexture ++ "_tex);".data,
   "    if (pixel.x < out_dim.x && pixel.y < out_dim.y) \x7b".data,
   "        process(vec2i(pixel.xy));".data,
   "    \x7d".data,
   "\x7d".data,
   "".data,
   "@compute @workgroup_size(8, 8)".data,
   "fn main_unchecked(@builtin(global_invocation_id) pixel: vec3u) \x7b".data,
   "    process(vec2i(pixel.xy));".data,
   "\x7d".data,
   "".data,
   "fn process(pos: vec2i) \x7b".data]

/-- The coordinate pre-computation lines emitted once before the first
accumulation (bound clamp base, sampling position, accumulator). -/
def declLines (h : MpvHook) : List Str :=
  (if h.needs_bound then
    ["    let bound = vec2i(textureDimensions(".data ++ h.output ++ "_tex)) - 1;".data]
   else []) ++
  (if h.needs_sampler then
    ["    let uv_pos = (vec2f(pos) + 0.5) / vec2f(textureDimensions(".data ++
       h.output ++ "_tex));".data]
   else []) ++
  ["    var result = vec4f();".data]

/-- The clamp expression for a same-scale offset access: clamp only on the
sides the offset can leave the output bounds on. -/
def boundedPosExpr (xo yo : Str) : Str :=
  let needsNeg := startsWithLit "-".data xo || startsWithLit "-".data yo
  let needsPos := (!startsWithLit "-".data xo && xo ≠ "0".data) ||
    (!startsWithLit "-".data yo && yo ≠ "0".data)
  if needsNeg && needsPos then
    "clamp(pos + vec2i(".data ++ xo ++ ", ".data ++ yo ++ "), vec2i(0), bound)".data
  else if needsNeg then
    "max(pos + vec2i(".data ++ xo ++ ", ".data ++ yo ++ "), vec2i(0))".data
  else if needsPos then
    "min(pos + vec2i(".data ++ xo ++ ", ".data ++ yo ++ "), bound)".data
  else "pos".data

/-- Normalization of a referenced texture name in macro translation:
`MAIN` becomes `source`. -/
def goTexName (t : Str) : Str :=
  if t = "MAIN".data then "source".data else t

/-- The WGSL lines generated for a rectified same-scale accessor macro. -/
def gMacroLines (funcName textureName sign : Str) : List Str :=
  ["fn ".data ++ funcName ++ "(pos: vec2i) -> vec4f \x7b".data,
   "    let value = textureLoad(".data ++ textureName ++ "_tex, pos, 0);".data,
   "    return max(".data ++ sign ++ "value, vec4f());".data,
   "\x7d".data, "".data]

/-- The translated accumulation statement for an offset access. -/
def prodStmtLine (h : MpvHook) (fsf : Nat) (pc : ProdCaps)
    (xo yo : Str) : Str :=
  if fsf ≠ h.scale_factor then
    "    result += mat4x4f(".data ++ pc.weights ++ ") * ".data ++
      pc.func ++ "(uv_pos, vec2i(".data ++ xo ++ ", ".data ++ yo ++ "));".data
  else
    "    result += mat4x4f(".data ++ pc.weights ++ ") * ".data ++
      pc.func ++ "(".data ++ boundedPosExpr xo yo ++ ");".data

/-- One line of the translation loop of `convert_conv_hook_code`, in the
branch order of the source; the line is trimmed first. -/
def convStep (h : MpvHook) (m : SMap) (st : ConvState) (rawLine : Str) :
    Except HookErr ConvState :=
  match matchGoMacro (trimChars rawLine) with
  | some c =>
    (match mapGet m (goTexName c.texture) with
     | none => .error (.unknownTexture (goTexName c.texture))
     | some target =>
       match c.fraction with
       | some _ =>
         if target = h.scale_factor then .error .fractionForSameScale
         else .ok ⟨st.code ++
             goMacroLines c.name (goTexName c.texture) c.sign c.fraction,
             mapIns st.fmap c.name target⟩
       | none =>
         if target ≠ h.scale_factor then .error .missingFraction
         else .ok ⟨st.code ++
             goMacroLines c.name (goTexName c.texture) c.sign c.fraction,
             mapIns st.fmap c.name target⟩)
  | none =>
  match matchGMacroRelu (trimChars rawLine) with
  | some g =>
    (match mapGet m (goTexName g.2.2) with
     | none => .error (.unknownTexture (goTexName g.2.2))
     | some target =>
       if target ≠ h.scale_factor then .error .nonOffsetDifferentScale
       else .ok ⟨st.code ++ gMacroLines g.1 (goTexName g.2.2) g.2.1,
         mapIns st.fmap g.1 target⟩)
  | none =>
  if isEntryBegin (trimChars rawLine) then
    .ok ⟨st.code ++ entryPointLines h.output, st.fmap⟩
  else if isEntryEnd (trimChars rawLine) then
    .ok ⟨st.code ++ ["\x7d".data], st.fmap⟩
  else
  match matchResultAddProd (trimChars rawLine) with
  | some pc =>
    (match mapGet st.fmap pc.func with
     | none => .error (.unknownFunction pc.func)
     | some fsf =>
       match pc.offsets with
       | some off =>
         .ok ⟨st.code ++ (if pc.decl then declLines h else []) ++
             [prodStmtLine h fsf pc off.1 off.2], st.fmap⟩
       | none =>
         if fsf ≠ h.scale_factor then .error .nonOffsetDifferentScale
         else .ok ⟨st.code ++ (if pc.decl then declLines h else []) ++
             ["    result += mat4x4f(".data ++ pc.weights ++ ") * ".data ++
               pc.func ++ "(pos);".data], st.fmap⟩)
  | none =>
  match matchResultAddVec (trimChars rawLine) with
  | some w =>
    .ok ⟨st.code ++ ["    result += vec4f(".data ++ w ++ ");".data], st.fmap⟩
  | none =>
  if isReturnAsIs (trimChars rawLine) then
    .ok ⟨st.code ++
      ["    textureStore(".data ++ h.output ++ "_tex, pos, result);".data], st.fmap⟩
  else
  match matchReturnOverlay (trimChars rawLine) with
  | some fac =>
    if h.scale_factor = 1 then
      .ok ⟨st.code ++
        ["    textureStore(".data ++ h.output ++ "_tex, pos, result".data ++
          fac ++ " + textureLoad(source_tex, pos, 0));".data], st.fmap⟩
    else
      .ok ⟨st.code ++
        ["    textureStore(".data ++ h.output ++ "_tex, pos, result".data ++
          fac ++ " + textureSampleLevel(source_tex, input_sampler, uv_pos, 0.0));".data],
        st.fmap⟩
  | none =>
  if startsWithLit "//".data (trimChars rawLine) then .ok st
  else if (trimChars rawLine).isEmpty then .ok st
  else .error (.unexpectedLine h.name (trimChars rawLine))

/-- The translation loop over all body lines. -/
def convLoop (h : MpvHook) (m : SMap) (st : ConvState) :
    List Str → Except HookErr ConvState
  | [] => .ok st
  | l :: rest =>
    match convStep h m st l with
    | .error e => .error e
    | .ok st' => convLoop h m st' rest

/-- Joins strings with a separator (Rust `[String]::join`). -/
def joinSep (sep : Str) : List Str → Str
  | [] => []
  | [x] => x
  | x :: xs => x ++ sep ++ joinSep sep xs

/-- The comment header of a generated convolution shader. -/
def headerCommentLines (h : MpvHook) : List Str :=
  ["// Layer: ".data ++ h.name,
   "// Inputs: ".data ++ joinSep ", ".data h.inputs,
   "// Output: ".data ++ h.output,
   "// Scale Factor: x".data ++ natToChars h.scale_factor ++ " from source".data,
   "".data]

/-- The input binding declaration for input index `i`. -/
def inputDeclLine (i : Nat) (input : Str) : Str :=
  "@group(0) @binding(".data ++ natToChars i ++ ") var ".data ++ input ++
    "_tex: texture_2d<f32>;".data

/-- The input binding declarations, sequential slots from 0. -/
def inputDeclLines (inputs : List Str) : List Str :=
  (inputs.enum).map fun p => inputDeclLine p.1 p.2

/-- The output storage-texture binding declaration at the slot after the
inputs. -/
def outputDeclLine (h : MpvHook) : Str :=
  "@group(0) @binding(".data ++ natToChars h.inputs.length ++ ") var ".data ++
    h.output ++ "_tex: texture_storage_2d<rgba32float, write>;".data

/-- The sampler binding declaration at the final slot. -/
def samplerDeclLine (h : MpvHook) : Str :=
  "@group(0) @binding(".data ++ natToChars (h.inputs.length + 1) ++
    ") var input_sampler: sampler;".data

/-- The fixed prologue of a generated convolution shader: comments, input
declarations, output declaration, conditionally the sampler declaration,
and a blank line. -/
def headerLines (h : MpvHook) : List Str :=
  headerCommentLines h ++ inputDeclLines h.inputs ++ [outputDeclLine h] ++
    (if h.needs_sampler then [samplerDeclLine h] else []) ++ ["".data]

/-- Model of `WgslStageShader::convert_conv_hook_code`: the prologue
followed by the line-by-line translation of the hook body. -/
def convertConvHookCode (h : MpvHook) (m : SMap) : Except HookErr (List Str) :=
  match convLoop h m ⟨headerLines h, []⟩ h.code with
  | .error e => .error e
  | .ok st => .ok st.code

/-- The stage payload of a generated WGSL shader
(`convert.rs::WgslStageShaderType`). -/
inductive WgslStageShaderType where
  | conv (code : List Str)
  | depthToSpace (channelCount : Nat)
deriving DecidableEq, Repr

/-- A generated WGSL stage (`convert.rs::WgslStageShader`). -/
structure WgslStageShader where
  source : MpvHook
  name : Str
  type : WgslStageShaderType
  inputs : List (Nat × Str)
  output : Nat × Str
  sampler : Option Nat
  scale_factor : Str
deriving DecidableEq, Repr

/-- The generated stage name of `WgslStageShader::new`: a `dest` output
becomes `result`. -/
def wgslStageName (src : MpvHook) : Str :=
  if src.output = "dest".data then "result".data else src.output

/-- The stage payload of `WgslStageShader::new`: convolution stages are
translated, depth-to-space stages record their channel count. -/
def wgslStageTy (src : MpvHook) (m : SMap) :
    Except HookErr WgslStageShaderType :=
  match src.type with
  | .conv =>
    match convertConvHookCode src m with
    | .error e => .error e
    | .ok code => .ok (.conv code)
  | .depthToSpace => .ok (.depthToSpace src.inputs.length)

/-- The input bindings of `WgslStageShader::new`: sequential indices with
`source` renamed to `SOURCE`. -/
def wgslInputs (src : MpvHook) : List (Nat × Str) :=
  src.inputs.enum.map fun p =>
    (p.1, if p.2 = "source".data then "SOURCE".data else p.2)

/-- Model of `WgslStageShader::new`: translates convolution stages,
records the channel count for depth-to-space stages, assigns sequential
binding indices, normalizes texture names, and reports a sampler binding
index exactly when the hook's scale factor exceeds 1. -/
def WgslStageShaderNew (src : MpvHook) (m : SMap) :
    Except HookErr WgslStageShader :=
  match wgslStageTy src m with
  | .error e => .error e
  | .ok ty =>
    .ok ⟨src, wgslStageName src, ty, wgslInputs src,
      ((wgslInputs src).length,
        if src.output = "dest".data then "RESULT".data else wgslStageName src),
      (if src.scale_factor > 1 then some ((wgslInputs src).length + 1) else none),
      (if src.scale_factor > 1 then natToChars src.scale_factor else "1".data)⟩

/-- Model of `MpvHook::new_scale_factor_map`: MAIN, HOOKED and source all
start at scale factor 1. -/
def newScaleFactorMap : SMap :=
  mapIns (mapIns (mapIns [] "MAIN".data 1) "HOOKED".data 1) "source".data 1

/-! Concrete instances used by counterexamples and witnesses. -/

/-- A (2, 2) scale-factor pair. -/
def sf22 : ScaleFactor × ScaleFactor := (ScaleFactor.new 2 1, ScaleFactor.new 2 1)

/-- A small convolution hook source: width and height double MAIN, one
MAIN input, output saved as `out`, one recognized body line. -/
def demoHookSrc : Str :=
  ("//!DESC Test-Conv-Stage\n//!WIDTH MAIN.w 2 *\n//!HEIGHT MAIN.h 2 *\n" ++
    "//!BIND MAIN\n//!SAVE out\nreturn result;\n").data

/-- The hook that `MpvHookNew` parses `demoHookSrc` into. -/
def demoHook : MpvHook :=
  ⟨"Test-Conv-Stage".data, 2, true, false, ["source".data], "out".data,
    .conv, ["return result;".data]⟩

/-- A hook whose own scale factor is 2 while its single input `conv2`
also has scale 2, so no input requires interpolated access
(`needs_sampler = false`) although the scale factor exceeds 1. -/
def c4CexSrc : Str :=
  ("//!DESC X-Conv-A\n//!WIDTH conv2.w\n//!HEIGHT conv2.h\n" ++
    "//!BIND conv2\n//!SAVE out2\n").data

/-- The scale map in effect when `c4CexSrc` is parsed: `conv2` was
produced earlier at scale 2. -/
def c4CexMap : SMap := mapIns newScaleFactorMap "conv2".data 2

/-- The hook that `MpvHookNew` parses `c4CexSrc` into. -/
def c4CexHook : MpvHook :=
  ⟨"X-Conv-A".data, 2, false, true, ["conv2".data], "out2".data, .conv, []⟩

/-- A convolution hook whose body contains one unrecognized GLSL line. -/
def c6Hook : MpvHook :=
  ⟨"X-Conv-A".data, 1, false, true, ["source".data], "out".data, .conv,
    ["float x = 1.0;".data]⟩

/-- A pipeline whose single pass produces the identifier `X` twice (on two
different bindings), so the lifetime analysis emits two records for the
one distinct identifier. -/
def c5CexSpec : PipelineSpec :=
  ⟨"p".data, "P".data, none,
   [⟨"pass1".data, "a.wgsl".data, [⟨"SOURCE".data, 0⟩],
     [⟨"X".data, 1, 4, sf22⟩, ⟨"X".data, 2, 4, sf22⟩], []⟩]⟩

/-- A pipeline whose single pass reads the identifier `FOO`, which is
neither SOURCE nor produced by any pass; compiling it (the source never
validates inside `compile`) hits the unkeyed assignment-map lookup. -/
def c3CexSpec : PipelineSpec :=
  ⟨"p".data, "P".data, none,
   [⟨"pass1".data, "a.wgsl".data, [⟨"FOO".data, 0⟩],
     [⟨"RESULT".data, 1, 4, sf22⟩], []⟩]⟩

/-- A valid two-pass pipeline used to exercise the loader behavior. -/
def c7Spec : PipelineSpec :=
  ⟨"p7".data, "P7".data, none,
   [⟨"p0".data, "a.wgsl".data, [⟨"SOURCE".data, 0⟩],
     [⟨"T1".data, 1, 4, sf22⟩], []⟩,
    ⟨"p1".data, "b.wgsl".data, [⟨"T1".data, 0⟩],
     [⟨"RESULT".data, 1, 4, sf22⟩], []⟩]⟩

/-- A loader that succeeds on every file. -/
def okLoader : Str → Except Str Str := fun _ => .ok "code".data

/-- A loader failing only on `b.wgsl`, with a generic error value. -/
def c7Loader1 : Str → Except Str Str := fun f =>
  if f = "b.wgsl".data then .error "oops".data else .ok "code".data

/-- A loader failing only on `a.wgsl`, with the same generic error
value. -/
def c7Loader2 : Str → Except Str Str := fun f =>
  if f = "a.wgsl".data then .error "oops".data else .ok "code".data

/-- The doubling WIDTH directive line of the C9 scenario. -/
def widthTwiceLine : Str := "//!WIDTH MAIN.w 2 *".data

/-- The doubling HEIGHT directive line of the C9 scenario. -/
def heightTwiceLine : Str := "//!HEIGHT MAIN.h 2 *".data

/-- Three compatible lifetimes with disjoint ranges `[0,2]`, `[3,5]`,
`[6,8]` (the concrete allocator scenario of the specification). -/
def threeDisjointLts : List TextureLifetime :=
  [⟨"T1".data, 4, sf22, 0, 2⟩, ⟨"T2".data, 4, sf22, 3, 5⟩,
   ⟨"T3".data, 4, sf22, 6, 8⟩]

/-- A lifetime list whose middle element is malformed
(`last_used_at < created_at`): the allocator then hands slot 0 first to
`A` (range `[0,10]`), then to `B` (whose recorded end 0 precedes its
creation 11), and then to `C` (range `[1,20]`), although `A` and `C`
overlap. -/
def c1CexLts : List TextureLifetime :=
  [⟨"A".data, 4, sf22, 0, 10⟩, ⟨"B".data, 4, sf22, 11, 0⟩,
   ⟨"C".data, 4, sf22, 1, 20⟩]

/-! Theorems. First, decimal formatting and parsing facts used by the
round-trip claim about `ScaleFactor`. -/

theorem natToCharsF_spec (n : Nat) :
    ∀ fuel acc, n < fuel → natToCharsF fuel n acc = natToChars n ++ acc := by
  induction n using Nat.strong_induction_on with
  | _ n ih =>
    intro fuel acc hf
    obtain ⟨f, rfl⟩ : ∃ f, fuel = f + 1 := ⟨fuel - 1, by omega⟩
    by_cases h : n < 10
    · simp only [natToCharsF, if_pos h, natToChars]
      simp [natToCharsF, h]
    · have hd : n / 10 < n := Nat.div_lt_self (by omega) (by omega)
      simp only [natToCharsF, if_neg h, natToChars]
      rw [ih (n / 10) hd f _ (by omega),
        ih (n / 10) hd n _ (by omega)]
      simp only [natToChars]
      simp [List.append_assoc]

theorem natToChars_step {n : Nat} (h : ¬ n < 10) :
    natToChars n = natToChars (n / 10) ++ [Char.ofNat (48 + n % 10)] := by
  conv_lhs => rw [natToChars]
  simp only [natToCharsF, if_neg h]
  exact natToCharsF_spec (n / 10) n _ (by
    have := Nat.div_lt_self (show 0 < n by omega) (show 1 < 10 by omega)
    omega)

theorem natToChars_base {n : Nat} (h : n < 10) :
    natToChars n = [Char.ofNat (48 + n % 10)] := by
  rw [natToChars]
  simp [natToCharsF, h]

theorem digit_char_toNat {m : Nat} (h : m < 10) :
    (Char.ofNat (48 + m)).toNat = 48 + m := by
  interval_cases m <;> decide

theorem natToChars_digits (n : Nat) :
    ∀ c ∈ natToChars n, 48 ≤ c.toNat ∧ c.toNat ≤ 57 := by
  induction n using Nat.strong_induction_on with
  | _ n ih =>
    intro c hc
    by_cases h : n < 10
    · rw [natToChars_base h] at hc
      simp at hc
      subst hc
      rw [digit_char_toNat (Nat.mod_lt _ (by omega))]
      omega
    · rw [natToChars_step h] at hc
      rcases List.mem_append.mp hc with h1 | h1
      · exact ih (n / 10) (Nat.div_lt_self (by omega) (by omega)) c h1
      · simp at h1
        subst h1
        rw [digit_char_toNat (Nat.mod_lt _ (by omega))]
        omega

theorem natToChars_ne_nil (n : Nat) : natToChars n ≠ [] := by
  by_cases h : n < 10
  · rw [natToChars_base h]
    simp
  · rw [natToChars_step h]
    simp

theorem charsVal_from (l : Str) :
    ∀ a, l.foldl (fun acc c => 10 * acc + (c.toNat - 48)) a =
      a * 10 ^ l.length + charsVal l := by
  induction l with
  | nil => intro a; simp [charsVal]
  | cons c t ih =>
    intro a
    simp only [List.foldl_cons, charsVal, List.length_cons]
    rw [ih (10 * a + (c.toNat - 48)), ih (10 * 0 + (c.toNat - 48))]
    ring

theorem charsVal_append (l1 l2 : Str) :
    charsVal (l1 ++ l2) = charsVal l1 * 10 ^ l2.length + charsVal l2 := by
  unfold charsVal
  rw [List.foldl_append]
  exact charsVal_from l2 _

theorem charsVal_natToChars (n : Nat) : charsVal (natToChars n) = n := by
  induction n using Nat.strong_induction_on with
  | _ n ih =>
    by_cases h : n < 10
    · have hn : n % 10 = n := Nat.mod_eq_of_lt h
      rw [natToChars_base h]
      simp only [charsVal, List.foldl_cons, List.foldl_nil, hn,
        digit_char_toNat h]
      omega
    · rw [natToChars_step h, charsVal_append,
        ih (n / 10) (Nat.div_lt_self (by omega) (by omega))]
      simp only [charsVal, List.length_cons, List.length_nil,
        List.foldl_cons, List.foldl_nil,
        digit_char_toNat (Nat.mod_lt n (show 0 < 10 by omega))]
      omega

theorem natToChars_all_digits (n : Nat) :
    (natToChars n).all isDigitChar = true := by
  rw [List.all_eq_true]
  intro c hc
  have := natToChars_digits n c hc
  simp [isDigitChar]
  omega

theorem natToChars_no_slash (n : Nat) : ¬ '/' ∈ natToChars n := by
  intro h
  have := natToChars_digits n _ h
  simp at this

theorem stripPlus_of_no_plus {cs : Str} (h : ¬ '+' ∈ cs) :
    stripPlus cs = cs := by
  cases cs with
  | nil => rfl
  | cons c t =>
    have : c ≠ '+' := fun he => h (by simp [he])
    simp [stripPlus, this]

theorem natToChars_no_plus (n : Nat) : ¬ '+' ∈ natToChars n := by
  intro h
  have := natToChars_digits n _ h
  simp at this

theorem parseU32_natToChars {n : Nat} (h : n < 2 ^ 32) :
    parseU32 (natToChars n) = some n := by
  unfold parseU32
  rw [stripPlus_of_no_plus (natToChars_no_plus n)]
  have h' : n < 4294967296 := by norm_num at h; exact h
  simp [natToChars_ne_nil n, natToChars_all_digits n, charsVal_natToChars n, h']

theorem parseU32_lt {cs : Str} {n : Nat} (h : parseU32 cs = some n) :
    n < 2 ^ 32 := by
  unfold parseU32 at h
  split at h
  · exact absurd h (by simp)
  · split at h
    · split at h
      · simp at h
        omega
      · exact absurd h (by simp)
    · exact absurd h (by simp)

theorem digit_ne_slash {c : Char} (h : isDigitChar c = true) : c ≠ '/' := by
  intro he
  subst he
  exact absurd h (by decide)

theorem parseU32_none_of_no_digits {cs : Str}
    (h : ∀ c ∈ cs, isDigitChar c = false) : parseU32 cs = none := by
  have hsub : ∀ c ∈ stripPlus cs, c ∈ cs := by
    intro c hc
    cases cs with
    | nil => simp [stripPlus] at hc
    | cons a t =>
      by_cases ha : a = '+'
      · simp [stripPlus, ha] at hc
        simp [hc]
      · simp [stripPlus, ha] at hc
        simp [hc]
  unfold parseU32
  cases hsp : stripPlus cs with
  | nil => simp
  | cons d t =>
    have hd : isDigitChar d = false := h d (hsub d (by rw [hsp]; simp))
    simp [hd]

theorem splitChar_ne_nil (sep : Char) (s : Str) : splitChar sep s ≠ [] := by
  induction s with
  | nil => simp [splitChar]
  | cons c t ih =>
    unfold splitChar
    by_cases h : c = sep
    · simp [h]
    · simp only [if_neg h]
      cases hs : splitChar sep t with
      | nil => simp
      | cons p ps => simp

theorem splitChar_no_sep {sep : Char} {s : Str} (h : ∀ c ∈ s, c ≠ sep) :
    splitChar sep s = [s] := by
  induction s with
  | nil => rfl
  | cons c t ih =>
    have hc : c ≠ sep := h c (by simp)
    unfold splitChar
    rw [if_neg hc, ih (fun x hx => h x (by simp [hx]))]

theorem splitChar_append_sep {sep : Char} {l1 l2 : Str}
    (h : ∀ c ∈ l1, c ≠ sep) :
    splitChar sep (l1 ++ sep :: l2) = l1 :: splitChar sep l2 := by
  induction l1 with
  | nil => simp [splitChar]
  | cons c t ih =>
    have hc : c ≠ sep := h c (by simp)
    show splitChar sep (c :: (t ++ sep :: l2)) = (c :: t) :: splitChar sep l2
    conv_lhs => rw [splitChar]
    rw [if_neg hc, ih (fun x hx => h x (by simp [hx]))]

theorem splitChar_subset {sep : Char} {s : Str} :
    ∀ p ∈ splitChar sep s, ∀ c ∈ p, c ∈ s := by
  induction s with
  | nil =>
    intro p hp c hc
    simp [splitChar] at hp
    subst hp
    simp at hc
  | cons a t ih =>
    intro p hp c hc
    unfold splitChar at hp
    by_cases ha : a = sep
    · simp only [if_pos ha] at hp
      rcases List.mem_cons.mp hp with h1 | h1
      · subst h1; simp at hc
      · exact List.mem_cons_of_mem _ (ih p h1 c hc)
    · simp only [if_neg ha] at hp
      cases hs : splitChar sep t with
      | nil => exact absurd hs (splitChar_ne_nil sep t)
      | cons p0 ps =>
        rw [hs] at hp
        rcases List.mem_cons.mp hp with h1 | h1
        · subst h1
          rcases List.mem_cons.mp hc with h2 | h2
          · simp [h2]
          · exact List.mem_cons_of_mem _ (ih p0 (by rw [hs]; simp) c h2)
        · exact List.mem_cons_of_mem _ (ih p (by rw [hs]; simp [h1]) c hc)

theorem sfFromStr_ok_inv {s : Str} {v : ScaleFactor}
    (h : sfFromStr s = .ok v) :
    v.numerator < 2 ^ 32 ∧ v.denominator < 2 ^ 32 ∧ 0 < v.denominator := by
  unfold sfFromStr at h
  split at h
  · split at h
    · rename_i hlen
      split at h
      · exact absurd h (by simp)
      · rename_i num hnum
        split at h
        · exact absurd h (by simp)
        · rename_i den hden
          split at h
          · exact absurd h (by simp)
          · rename_i hz
            simp only [Except.ok.injEq] at h
            subst h
            exact ⟨parseU32_lt hnum, parseU32_lt hden, by
              simp [ScaleFactor.new]; omega⟩
    · exact absurd h (by simp)
  · split at h
    · exact absurd h (by simp)
    · rename_i num hnum
      simp only [Except.ok.injEq] at h
      subst h
      exact ⟨parseU32_lt hnum, by simp [ScaleFactor.new], by simp [ScaleFactor.new]⟩

/-- C8: parsing a valid textual scale factor, formatting the result, and
parsing again yields the same `ScaleFactor` (stated as: every successful
parse is reproduced by parsing its own formatting, which covers every
valid form `n` and `n/d` with `d > 0`); moreover every string of the form
`n/0` fails to parse, and every string containing no decimal digit fails
to parse. -/
theorem c8_scale_factor_round_trip :
    (∀ (s : Str) (v : ScaleFactor), sfFromStr s = .ok v →
      sfFromStr (sfFormat v) = .ok v) ∧
    (∀ ds : Str, ds ≠ [] → ds.all isDigitChar = true →
      ∃ e, sfFromStr (ds ++ "/0".data) = .error e) ∧
    (∀ s : Str, (∀ c ∈ s, isDigitChar c = false) →
      ∃ e, sfFromStr s = .error e) := by
  refine ⟨?_, ?_, ?_⟩
  · intro s v h
    obtain ⟨hnum, hden, hpos⟩ := sfFromStr_ok_inv h
    unfold sfFormat
    by_cases hd : v.denominator = 1
    · rw [if_pos hd]
      have hns : (natToChars v.numerator).contains '/' = false := by
        simp
        exact natToChars_no_slash _
      unfold sfFromStr
      rw [hns]
      simp only [Bool.false_eq_true, if_false]
      rw [parseU32_natToChars hnum]
      cases v with
      | mk a b =>
        simp at hd
        subst hd
        rfl
    · rw [if_neg hd]
      have hmem : (natToChars v.numerator ++ '/' :: natToChars v.denominator).contains '/' = true := by
        simp
      unfold sfFromStr
      rw [hmem]
      simp only [if_true]
      have hsplit : splitChar '/' (natToChars v.numerator ++ '/' :: natToChars v.denominator) =
          [natToChars v.numerator, natToChars v.denominator] := by
        rw [splitChar_append_sep (fun c hc => digit_ne_slash
          (by have := natToChars_digits _ c hc; simp [isDigitChar]; omega)),
          splitChar_no_sep (fun c hc => digit_ne_slash
          (by have := natToChars_digits _ c hc; simp [isDigitChar]; omega))]
      rw [dif_pos (by simp [hsplit])]
      rw [List.get_of_eq hsplit, List.get_of_eq hsplit]
      simp only [List.get]
      rw [parseU32_natToChars hnum, parseU32_natToChars hden]
      have hz : v.denominator ≠ 0 := by omega
      cases v with
      | mk a b =>
        simp only [] at hz ⊢
        simp [ScaleFactor.new, hz]
  · intro ds hne hdig
    have hnosep : ∀ c ∈ ds, c ≠ '/' := by
      intro c hc
      exact digit_ne_slash (by rw [List.all_eq_true] at hdig; exact hdig c hc)
    have hmem : (ds ++ "/0".data).contains '/' = true := by simp
    unfold sfFromStr
    rw [hmem]
    simp only [if_true]
    have hsplit : splitChar '/' (ds ++ "/0".data) = [ds, ['0']] := by
      have : ds ++ "/0".data = ds ++ '/' :: ['0'] := by rfl
      rw [this, splitChar_append_sep hnosep, splitChar_no_sep (by decide)]
    rw [dif_pos (by simp [hsplit])]
    rw [List.get_of_eq hsplit, List.get_of_eq hsplit]
    simp only [List.get]
    cases hp : parseU32 ds with
    | none => exact ⟨.invalidNumerator, rfl⟩
    | some n =>
      have h0 : parseU32 ['0'] = some 0 := by decide
      rw [h0]
      exact ⟨.zeroDenominator, by simp⟩
  · intro s hnd
    unfold sfFromStr
    by_cases hc : s.contains '/' = true
    · rw [hc]
      simp only [if_true]
      by_cases hl : (splitChar '/' s).length = 2
      · rw [dif_pos hl]
        have h0 : parseU32 ((splitChar '/' s).get ⟨0, by omega⟩) = none := by
          apply parseU32_none_of_no_digits
          intro c hcp
          exact hnd c (splitChar_subset _ (List.get_mem _ _ _) c hcp)
        rw [h0]
        exact ⟨.invalidNumerator, rfl⟩
      · rw [dif_neg hl]
        exact ⟨.invalidFormat, rfl⟩
    · simp only [Bool.not_eq_true] at hc
      rw [hc]
      simp only [Bool.false_eq_true, if_false]
      rw [parseU32_none_of_no_digits hnd]
      exact ⟨.invalidNumerator, rfl⟩

/-- Concrete instantiation of C8 at the fraction `3/4`, the digit string
`12`, and the non-numeric text `abc`. -/
theorem c8_scale_factor_round_trip_witness :
    sfFromStr (sfFormat (ScaleFactor.new 3 4)) = .ok (ScaleFactor.new 3 4) ∧
    (∃ e, sfFromStr ("12".data ++ "/0".data) = .error e) ∧
    (∃ e, sfFromStr "abc".data = .error e) :=
  ⟨c8_scale_factor_round_trip.1 "3/4".data (ScaleFactor.new 3 4) rfl,
   c8_scale_factor_round_trip.2.1 "12".data (by decide) (by decide),
   c8_scale_factor_round_trip.2.2 "abc".data (by decide)⟩

/-! The physical texture allocator: slot chain invariants for C1 and C2. -/

theorem canReuse_iff {ex lt : TextureLifetime} :
    canReuse ex lt = true ↔
      ex.last_used_at < lt.created_at ∧ ex.components = lt.components ∧
        ex.scale_factor = lt.scale_factor := by
  simp [canReuse, and_assoc]

theorem findSlot_lt {lt : TextureLifetime} :
    ∀ {slots : List (Option TextureLifetime)} {i : Nat} {r : Bool},
      findSlot lt slots = some (i, r) → i < slots.length := by
  intro slots
  induction slots with
  | nil => intro i r h; simp [findSlot] at h
  | cons s rest ih =>
    intro i r h
    cases s with
    | none =>
      have h' : some ((0 : Nat), false) = some (i, r) := h
      have hi : i = 0 := by
        injection h' with h''
        exact (congrArg Prod.fst h'').symm
      simp [hi]
    | some ex =>
      unfold findSlot at h
      by_cases hc : canReuse ex lt = true
      · rw [if_pos hc] at h
        have hi : i = 0 := by
          injection h with h''
          exact (congrArg Prod.fst h'').symm
        simp [hi]
      · rw [if_neg hc] at h
        cases hf : findSlot lt rest with
        | none => rw [hf] at h; simp at h
        | some p =>
          rw [hf] at h
          simp only [Option.map_some', Option.some.injEq] at h
          have hi : i = p.1 + 1 := (congrArg Prod.fst h.symm)
          have := @ih p.1 p.2 (by rw [hf])
          simp only [List.length_cons]
          omega

theorem findSlot_spec {lt : TextureLifetime} :
    ∀ {slots : List (Option TextureLifetime)} {i : Nat} {r : Bool},
      findSlot lt slots = some (i, r) →
      (r = false → slots[i]? = some none) ∧
      (r = true → ∃ ex, slots[i]? = some (some ex) ∧ canReuse ex lt = true) := by
  intro slots
  induction slots with
  | nil => intro i r h; simp [findSlot] at h
  | cons s rest ih =>
    intro i r h
    cases s with
    | none =>
      have h' : some ((0 : Nat), false) = some (i, r) := h
      have hp : ((0 : Nat), false) = (i, r) := by injection h'
      have hi : i = 0 := (congrArg Prod.fst hp).symm
      have hr : r = false := (congrArg Prod.snd hp).symm
      subst hi
      constructor
      · intro _; simp
      · intro ht; rw [hr] at ht; exact absurd ht (by simp)
    | some ex =>
      unfold findSlot at h
      by_cases hc : canReuse ex lt = true
      · rw [if_pos hc] at h
        have hp : ((0 : Nat), true) = (i, r) := by injection h
        have hi : i = 0 := (congrArg Prod.fst hp).symm
        have hr : r = true := (congrArg Prod.snd hp).symm
        subst hi
        constructor
        · intro hfa; rw [hr] at hfa; exact absurd hfa (by simp)
        · intro _; exact ⟨ex, by simp, hc⟩
      · rw [if_neg hc] at h
        cases hf : findSlot lt rest with
        | none => rw [hf] at h; simp at h
        | some p =>
          rw [hf] at h
          simp only [Option.map_some', Option.some.injEq] at h
          have hi : i = p.1 + 1 := (congrArg Prod.fst h.symm)
          have hr : r = p.2 := (congrArg Prod.snd h.symm)
          have hspec := @ih p.1 p.2 (by rw [hf])
          subst hi
          constructor
          · intro hfa
            simpa using hspec.1 (by rw [← hr]; exact hfa)
          · intro hta
            obtain ⟨ex', hex', hcr⟩ := hspec.2 (by rw [← hr]; exact hta)
            exact ⟨ex', by simpa using hex', hcr⟩

theorem allocStep_occupant {st : AllocState} {lt : TextureLifetime}
    {st' : AllocState} {i : Nat} (h : allocStep st lt = (st', i)) :
    st'.slots[i]? = some (some lt) := by
  unfold allocStep at h
  cases hf : findSlot lt st.slots with
  | none =>
    rw [hf] at h
    simp at h
    obtain ⟨hst, hi⟩ := h
    subst hi
    rw [← hst]
    exact List.getElem?_concat_length _ _
  | some p =>
    rw [hf] at h
    simp at h
    obtain ⟨hst, hi⟩ := h
    have hlt : p.1 < st.slots.length := findSlot_lt (by rw [hf])
    subst hi
    rw [← hst]
    simp [List.getElem?_set_self', hlt]

theorem allocStep_other {st : AllocState} {lt : TextureLifetime}
    {st' : AllocState} {i k : Nat} (h : allocStep st lt = (st', i))
    (hk : k ≠ i) : st'.slots[k]? = st.slots[k]? := by
  unfold allocStep at h
  cases hf : findSlot lt st.slots with
  | none =>
    rw [hf] at h
    simp at h
    obtain ⟨hst, hi⟩ := h
    subst hi
    rw [← hst]
    simp only []
    by_cases hlt : k < st.slots.length
    · rw [List.getElem?_append]
      simp [hlt]
    · rw [List.getElem?_eq_none (by simp; omega),
        List.getElem?_eq_none (by omega)]
  | some p =>
    rw [hf] at h
    simp at h
    obtain ⟨hst, hi⟩ := h
    subst hi
    rw [← hst]
    simp only []
    rw [List.getElem?_set_ne (by omega)]

theorem allocStep_reuse {st : AllocState} {lt : TextureLifetime}
    {st' : AllocState} {i : Nat} {ex : TextureLifetime}
    (h : allocStep st lt = (st', i))
    (hex : st.slots[i]? = some (some ex)) : canReuse ex lt = true := by
  unfold allocStep at h
  cases hf : findSlot lt st.slots with
  | none =>
    rw [hf] at h
    simp at h
    obtain ⟨_, hi⟩ := h
    subst hi
    rw [List.getElem?_eq_none (by omega)] at hex
    exact absurd hex (by simp)
  | some p =>
    rw [hf] at h
    simp at h
    obtain ⟨_, hi⟩ := h
    subst hi
    have hspec := @findSlot_spec lt st.slots p.1 p.2 (by rw [hf])
    cases hr : p.2 with
    | false =>
      have := hspec.1 hr
      rw [this] at hex
      exact absurd hex (by simp)
    | true =>
      obtain ⟨ex', hex', hcr⟩ := hspec.2 hr
      rw [hex'] at hex
      simp at hex
      rw [← hex]
      exact hcr

theorem allocLoop_compat :
    ∀ (lts : List TextureLifetime) (st : AllocState) (k : Nat)
      (occ : TextureLifetime), st.slots[k]? = some (some occ) →
      ∀ p ∈ (allocLoop st lts).2, p.2 = k →
        p.1.components = occ.components ∧
          p.1.scale_factor = occ.scale_factor := by
  intro lts
  induction lts with
  | nil => intro st k occ hocc p hp; simp [allocLoop] at hp
  | cons lt rest ih =>
    intro st k occ hocc p hp hpk
    obtain ⟨st', i, hstep⟩ : ∃ st' i, allocStep st lt = (st', i) := ⟨_, _, rfl⟩
    simp only [allocLoop, hstep] at hp
    rcases List.mem_cons.mp hp with h1 | h1
    · subst h1
      simp only [] at hpk
      subst hpk
      have hcr := canReuse_iff.mp (allocStep_reuse hstep hocc)
      exact ⟨hcr.2.1.symm, hcr.2.2.symm⟩
    · by_cases hik : i = k
      · subst hik
        have hocc' := allocStep_occupant hstep
        have hcr := canReuse_iff.mp (allocStep_reuse hstep hocc)
        have := ih st' i lt hocc' p h1 hpk
        exact ⟨this.1.trans hcr.2.1.symm, this.2.trans hcr.2.2.symm⟩
      · have hocc' : st'.slots[k]? = some (some occ) := by
          rw [allocStep_other hstep (fun he => hik he.symm)]
          exact hocc
        exact ih st' k occ hocc' p h1 hpk

theorem allocLoop_after :
    ∀ (lts : List TextureLifetime) (st : AllocState) (k : Nat)
      (occ : TextureLifetime),
      (∀ l ∈ lts, l.created_at ≤ l.last_used_at) →
      st.slots[k]? = some (some occ) →
      ∀ p ∈ (allocLoop st lts).2, p.2 = k →
        occ.last_used_at < p.1.created_at := by
  intro lts
  induction lts with
  | nil => intro st k occ _ hocc p hp; simp [allocLoop] at hp
  | cons lt rest ih =>
    intro st k occ hwf hocc p hp hpk
    obtain ⟨st', i, hstep⟩ : ∃ st' i, allocStep st lt = (st', i) := ⟨_, _, rfl⟩
    simp only [allocLoop, hstep] at hp
    rcases List.mem_cons.mp hp with h1 | h1
    · subst h1
      simp only [] at hpk
      subst hpk
      exact (canReuse_iff.mp (allocStep_reuse hstep hocc)).1
    · by_cases hik : i = k
      · subst hik
        have hocc' := allocStep_occupant hstep
        have hcr := canReuse_iff.mp (allocStep_reuse hstep hocc)
        have hlt := ih st' i lt (fun l hl => hwf l (by simp [hl])) hocc' p h1 hpk
        have hwl := hwf lt (by simp)
        omega
      · have hocc' : st'.slots[k]? = some (some occ) := by
          rw [allocStep_other hstep (fun he => hik he.symm)]
          exact hocc
        exact ih st' k occ (fun l hl => hwf l (by simp [hl])) hocc' p h1 hpk

theorem allocLoop_pairwise_compat (lts : List TextureLifetime)
    (st : AllocState) :
    List.Pairwise (fun p q => p.2 = q.2 →
      p.1.components = q.1.components ∧ p.1.scale_factor = q.1.scale_factor)
      (allocLoop st lts).2 := by
  induction lts generalizing st with
  | nil => simp [allocLoop]
  | cons lt rest ih =>
    obtain ⟨st', i, hstep⟩ : ∃ st' i, allocStep st lt = (st', i) := ⟨_, _, rfl⟩
    simp only [allocLoop, hstep]
    refine List.Pairwise.cons ?_ (ih st')
    intro q hq hqk
    have hocc := allocStep_occupant hstep
    simp only [] at hqk
    have := allocLoop_compat rest st' i lt hocc q hq hqk.symm
    exact ⟨this.1.symm, this.2.symm⟩

theorem allocLoop_pairwise_after (lts : List TextureLifetime)
    (st : AllocState) (hwf : ∀ l ∈ lts, l.created_at ≤ l.last_used_at) :
    List.Pairwise (fun p q => p.2 = q.2 →
      p.1.last_used_at < q.1.created_at) (allocLoop st lts).2 := by
  induction lts generalizing st with
  | nil => simp [allocLoop]
  | cons lt rest ih =>
    obtain ⟨st', i, hstep⟩ : ∃ st' i, allocStep st lt = (st', i) := ⟨_, _, rfl⟩
    simp only [allocLoop, hstep]
    refine List.Pairwise.cons ?_ (ih st' (fun l hl => hwf l (by simp [hl])))
    intro q hq hqk
    have hocc := allocStep_occupant hstep
    simp only [] at hqk
    exact allocLoop_after rest st' i lt (fun l hl => hwf l (by simp [hl]))
      hocc q hq hqk.symm

/-- C2: in every lifetime list processed by `assign_physical_textures`,
any two lifetimes assigned the same physical id have exactly equal
component counts and exactly equal scale-factor pairs, where scale-factor
equality is strict field-wise equality of numerator and denominator; in
particular two lifetimes whose scale factors are expressed differently
(such as 2/1 versus 4/2) can never share a physical id. -/
theorem c2_allocator_same_id_same_format (lts : List TextureLifetime) :
    List.Pairwise (fun p q => p.2 = q.2 →
      p.1.components = q.1.components ∧ p.1.scale_factor = q.1.scale_factor)
      (assignedPairs lts) :=
  allocLoop_pairwise_compat lts allocInit

/-- C1 (amended): when every lifetime in the list is well-formed
(`created_at ≤ last_used_at`, as every lifetime produced by the lifetime
analysis is), any two lifetimes assigned the same physical id have
non-overlapping `[created_at, last_used_at]` intervals. -/
theorem c1_allocator_same_id_disjoint (lts : List TextureLifetime)
    (hwf : ∀ l ∈ lts, l.created_at ≤ l.last_used_at) :
    List.Pairwise (fun p q => p.2 = q.2 →
      p.1.last_used_at < q.1.created_at ∨ q.1.last_used_at < p.1.created_at)
      (assignedPairs lts) :=
  (allocLoop_pairwise_after lts allocInit hwf).imp
    (fun h hpq => Or.inl (h hpq))

/-- C1 counterexample: for the unrestricted claim (over every lifetime
list), the list `c1CexLts` with a malformed middle lifetime makes the
allocator assign all three lifetimes to physical id 0, although the first
and third have overlapping intervals `[0,10]` and `[1,20]`. -/
theorem c1_allocator_counterexample :
    ¬ List.Pairwise (fun p q => p.2 = q.2 →
      p.1.last_used_at < q.1.created_at ∨ q.1.last_used_at < p.1.created_at)
      (assignedPairs c1CexLts) := by
  decide

/-- Concrete instantiation of C1 at the three-disjoint-lifetime scenario
of the specification. -/
theorem c1_allocator_same_id_disjoint_witness :
    List.Pairwise (fun p q => p.2 = q.2 →
      p.1.last_used_at < q.1.created_at ∨ q.1.last_used_at < p.1.created_at)
      (assignedPairs threeDisjointLts) :=
  c1_allocator_same_id_disjoint threeDisjointLts (by decide)

/-! Hook parsing (`MpvHook::new`): scale-map discipline and scale-factor
resolution, for C9 and C10. -/

theorem mapGet_ins (m : SMap) (k : Str) (v : Nat) (k' : Str) :
    mapGet (mapIns m k v) k' = if k' = k then some v else mapGet m k' := by
  by_cases hk : k = k'
  · subst hk
    simp [mapGet, mapIns, List.find?]
  · have hk' : ¬ k' = k := fun he => hk he.symm
    simp [mapGet, mapIns, List.find?, hk, hk']

theorem MpvHookNew_snd (source : Str) (m : SMap) :
    (MpvHookNew source m).2 =
      match (MpvHookNew source m).1 with
      | .error _ => m
      | .ok h => mapIns m h.output h.scale_factor := by
  unfold MpvHookNew
  cases hdl : dirLoop m ⟨[], 0, [], [], []⟩ (linesOf source) with
  | error e => rfl
  | ok st =>
    simp only []
    split
    · rfl
    · split
      · rfl
      · split
        · rfl
        · split
          · rfl
          · split
            · rfl
            · split
              · rfl
              · rfl

theorem MpvHookNew_ok_inv {source : Str} {m : SMap} {h : MpvHook}
    (hok : (MpvHookNew source m).1 = .ok h) :
    ∃ st, dirLoop m ⟨[], 0, [], [], []⟩ (linesOf source) = .ok st ∧
      h.scale_factor = st.scale_factor ∧ h.output = st.output := by
  unfold MpvHookNew at hok
  cases hdl : dirLoop m ⟨[], 0, [], [], []⟩ (linesOf source) with
  | error e => rw [hdl] at hok; exact absurd hok (by simp)
  | ok st =>
    rw [hdl] at hok
    simp only [] at hok
    refine ⟨st, rfl, ?_⟩
    split at hok
    · exact absurd hok (by simp)
    · split at hok
      · exact absurd hok (by simp)
      · split at hok
        · exact absurd hok (by simp)
        · split at hok
          · exact absurd hok (by simp)
          · split at hok
            · exact absurd hok (by simp)
            · split at hok
              · exact absurd hok (by simp)
              · simp only [Except.ok.injEq] at hok
                subst hok
                exact ⟨rfl, rfl⟩

/-- C10: the scale map handed to `MpvHook::new` is returned unchanged on
every error, and on success differs from the input map in exactly the one
entry for the parsed hook's output name, now mapped to the hook's resolved
scale factor. -/
theorem c10_hook_parse_map_discipline (source : Str) (m : SMap) :
    ((∃ e, (MpvHookNew source m).1 = .error e) →
      (MpvHookNew source m).2 = m) ∧
    (∀ h, (MpvHookNew source m).1 = .ok h →
      ∀ k, mapGet (MpvHookNew source m).2 k =
        if k = h.output then some h.scale_factor else mapGet m k) := by
  constructor
  · intro ⟨e, he⟩
    rw [MpvHookNew_snd, he]
  · intro h hok k
    rw [MpvHookNew_snd, hok]
    exact mapGet_ins m h.output h.scale_factor k

/-- Concrete instantiation of C10: the empty source fails (its empty
description matches no stage kind) and leaves the initial map untouched;
`demoHookSrc` succeeds and registers exactly `out` at scale 2. -/
theorem c10_hook_parse_map_discipline_witness :
    (MpvHookNew [] newScaleFactorMap).2 = newScaleFactorMap ∧
    mapGet (MpvHookNew demoHookSrc newScaleFactorMap).2 "out".data =
      (if ("out".data : Str) = demoHook.output then some demoHook.scale_factor
        else mapGet newScaleFactorMap "out".data) :=
  ⟨(c10_hook_parse_map_discipline [] newScaleFactorMap).1
      ⟨.unknownStageType, rfl⟩,
    (c10_hook_parse_map_discipline demoHookSrc newScaleFactorMap).2 demoHook
      rfl "out".data⟩

theorem dirStep_sf {m : SMap} {st : DirState} {l : Str} {st' : DirState}
    (h : dirStep m st l = .ok st') (hsf : st.scale_factor ≠ 0) :
    st'.scale_factor = st.scale_factor := by
  unfold dirStep at h
  repeat' split at h
  all_goals
    first
      | omega
      | (simp only [Except.ok.injEq] at h; subst h; rfl)
      | simp at h

theorem dirLoop_sf {m : SMap} :
    ∀ {lines : List Str} {st st' : DirState},
      dirLoop m st lines = .ok st' → st.scale_factor ≠ 0 →
      st'.scale_factor = st.scale_factor := by
  intro lines
  induction lines with
  | nil =>
    intro st st' h hsf
    simp only [dirLoop, Except.ok.injEq] at h
    subst h
    rfl
  | cons l rest ih =>
    intro st st' h hsf
    unfold dirLoop at h
    cases hs : dirStep m st l with
    | error e => rw [hs] at h; exact absurd h (by simp)
    | ok st1 =>
      rw [hs] at h
      have h1 := dirStep_sf hs hsf
      rw [ih h (by omega), h1]

theorem dirStep_width_two {m : SMap} {st : DirState}
    (hm : mapGet m "MAIN".data = some 1) :
    dirStep m st widthTwiceLine =
      (if st.scale_factor = 0 then .ok { st with scale_factor := 2 }
       else if st.scale_factor ≠ 2 then .error .inconsistentScale
       else .ok st) := by
  have e1 : dropLit "//!DESC ".data widthTwiceLine = none := rfl
  have e2 : (startsWithLit "//!WIDTH ".data widthTwiceLine ||
      startsWithLit "//!HEIGHT ".data widthTwiceLine) = true := rfl
  have e3 : matchScaleDir widthTwiceLine = some ("MAIN".data, some ['2']) := rfl
  unfold dirStep
  rw [e1]
  simp only [e2, if_true, e3]
  norm_num [hm]
  rfl

theorem dirLoop_width_two {m : SMap} (hm : mapGet m "MAIN".data = some 1) :
    ∀ {lines : List Str} {st st' : DirState},
      widthTwiceLine ∈ lines →
      dirLoop m st lines = .ok st' → st'.scale_factor = 2 := by
  intro lines
  induction lines with
  | nil => intro st st' hmem; simp at hmem
  | cons l rest ih =>
    intro st st' hmem h
    unfold dirLoop at h
    cases hs : dirStep m st l with
    | error e => rw [hs] at h; exact absurd h (by simp)
    | ok st1 =>
      rw [hs] at h
      rcases List.mem_cons.mp hmem with h1 | h1
      · subst h1
        rw [dirStep_width_two hm] at hs
        by_cases h0 : st.scale_factor = 0
        · rw [if_pos h0] at hs
          simp only [Except.ok.injEq] at hs
          subst hs
          exact dirLoop_sf h (by simp)
        · rw [if_neg h0] at hs
          by_cases h2 : st.scale_factor = 2
          · rw [if_neg (by omega)] at hs
            simp only [Except.ok.injEq] at hs
            subst hs
            rw [dirLoop_sf h h0]
            exact h2
          · rw [if_pos (by omega)] at hs
            exact absurd hs (by simp)
      · exact ih h1 h

/-- C9: for every hook source containing the directive pair
`WIDTH MAIN.w 2 *` and `HEIGHT MAIN.h 2 *`, parsed against a scale map in
which MAIN has scale 1, a successful parse resolves the hook's scale
factor to 2, and afterwards the running scale map maps the hook's output
name (taken from the SAVE directive, with MAIN normalized) to 2. -/
theorem c9_hook_scale_two {source : Str} {m : SMap} {h : MpvHook}
    (hw : widthTwiceLine ∈ linesOf source)
    (_hh : heightTwiceLine ∈ linesOf source)
    (hm : mapGet m "MAIN".data = some 1)
    (hok : (MpvHookNew source m).1 = .ok h) :
    h.scale_factor = 2 ∧
      mapGet (MpvHookNew source m).2 h.output = some 2 := by
  obtain ⟨st, hdl, hsf, hout⟩ := MpvHookNew_ok_inv hok
  have h2 : st.scale_factor = 2 := dirLoop_width_two hm hw hdl
  have hsf2 : h.scale_factor = 2 := by rw [hsf, h2]
  refine ⟨hsf2, ?_⟩
  rw [MpvHookNew_snd, hok, mapGet_ins]
  simp [hsf2]

/-- Concrete instantiation of C9 at `demoHookSrc` with the initial scale
map. -/
theorem c9_hook_scale_two_witness :
    demoHook.scale_factor = 2 ∧
      mapGet (MpvHookNew demoHookSrc newScaleFactorMap).2 demoHook.output =
        some 2 :=
  c9_hook_scale_two (by decide) (by decide) (by decide) rfl

/-! The convolution translator: binding layout (C4) and the
fatal-on-unrecognized-line policy (C6). -/

theorem opt_eq_none_of_isSome_false {α : Type} {o : Option α}
    (h : o.isSome = false) : o = none := by
  cases o with
  | none => rfl
  | some a => simp at h

theorem convStep_code {h : MpvHook} {m : SMap} {st : ConvState} {l : Str}
    {st' : ConvState} (hs : convStep h m st l = .ok st') :
    ∃ extra, st'.code = st.code ++ extra := by
  unfold convStep at hs
  repeat' split at hs
  all_goals
    first
      | (subst hs; exact ⟨_, rfl⟩)
      | (subst hs; exact ⟨[], (List.append_nil _).symm⟩)
      | (subst hs; exact ⟨_, List.append_assoc _ _ _⟩)
      | (simp only [Except.ok.injEq] at hs; subst hs; exact ⟨_, rfl⟩)
      | (simp only [Except.ok.injEq] at hs; subst hs;
          exact ⟨[], (List.append_nil _).symm⟩)
      | (simp only [Except.ok.injEq] at hs; subst hs;
          exact ⟨_, List.append_assoc _ _ _⟩)
      | (simp at hs; done)

theorem convLoop_code {h : MpvHook} {m : SMap} :
    ∀ {lines : List Str} {st st' : ConvState},
      convLoop h m st lines = .ok st' → ∃ extra, st'.code = st.code ++ extra := by
  intro lines
  induction lines with
  | nil =>
    intro st st' hl
    simp only [convLoop, Except.ok.injEq] at hl
    subst hl
    exact ⟨[], by simp⟩
  | cons l rest ih =>
    intro st st' hl
    unfold convLoop at hl
    cases hs : convStep h m st l with
    | error e => rw [hs] at hl; exact absurd hl (by simp)
    | ok st1 =>
      rw [hs] at hl
      obtain ⟨e1, he1⟩ := convStep_code hs
      obtain ⟨e2, he2⟩ := ih hl
      exact ⟨e1 ++ e2, by rw [he2, he1, List.append_assoc]⟩

/-- C4 (amended): the binding declarations of every successfully
translated convolution hook are exactly one `texture_2d` binding per input
at sequential slots from 0, the storage output binding at the next slot,
and a sampler binding at the final slot present if and only if some input
requires interpolated access (`needs_sampler`); the stage's reported
sampler field, by contrast, is `some (inputs + 1)` exactly when the hook's
own scale factor exceeds 1, which is the condition the source actually
uses and can disagree with the sampler binding's presence. -/
theorem c4_conv_binding_layout :
    (∀ (h : MpvHook) (m : SMap) (ls : List Str),
      convertConvHookCode h m = .ok ls →
      ∃ rest, ls = headerCommentLines h ++ inputDeclLines h.inputs ++
        [outputDeclLine h] ++
        (if h.needs_sampler then [samplerDeclLine h] else []) ++
        ["".data] ++ rest) ∧
    (∀ (src : MpvHook) (m : SMap) (sh : WgslStageShader),
      WgslStageShaderNew src m = .ok sh →
      sh.sampler =
        if src.scale_factor > 1 then some (src.inputs.length + 1) else none) := by
  constructor
  · intro h m ls hok
    unfold convertConvHookCode at hok
    cases hl : convLoop h m ⟨headerLines h, []⟩ h.code with
    | error e => rw [hl] at hok; exact absurd hok (by simp)
    | ok st =>
      rw [hl] at hok
      simp only [Except.ok.injEq] at hok
      obtain ⟨extra, hex⟩ := convLoop_code hl
      refine ⟨extra, ?_⟩
      rw [← hok, hex]
      simp [headerLines, List.append_assoc]
  · intro src m sh hok
    unfold WgslStageShaderNew at hok
    split at hok
    · exact absurd hok (by simp)
    · simp only [Except.ok.injEq] at hok
      subst hok
      simp only []
      by_cases hsf : src.scale_factor > 1
      · simp [hsf, wgslInputs, List.enum_length]
      · simp [hsf]

/-- C4 counterexample: the hook parsed from `c4CexSrc` has scale factor 2
but `needs_sampler = false`; its translation emits no sampler binding
declaration, yet `WgslStageShader::new` reports sampler binding index 2,
so the reported index does not designate the final slot "exactly when the
sampler is required". -/
theorem c4_conv_binding_layout_counterexample :
    (MpvHookNew c4CexSrc c4CexMap).1 = .ok c4CexHook ∧
    c4CexHook.needs_sampler = false ∧
    (∃ ls, convertConvHookCode c4CexHook c4CexMap = .ok ls ∧
      ¬ samplerDeclLine c4CexHook ∈ ls) ∧
    (∃ sh, WgslStageShaderNew c4CexHook c4CexMap = .ok sh ∧
      sh.sampler = some 2) := by
  refine ⟨rfl, rfl, ⟨headerLines c4CexHook, rfl, ?_⟩, ⟨_, rfl, rfl⟩⟩
  decide

theorem convStep_unrecognized {h : MpvHook} {m : SMap} {st : ConvState}
    {l : Str} (hrec : recognizedConvLine (trimChars l) = false) :
    convStep h m st l = .error (.unexpectedLine h.name (trimChars l)) := by
  simp only [recognizedConvLine, Bool.or_eq_false_iff] at hrec
  obtain ⟨⟨⟨⟨⟨⟨⟨⟨⟨h1, h2⟩, h3⟩, h4⟩, h5⟩, h6⟩, h7⟩, h8⟩, h9⟩, h10⟩ := hrec
  have g1 := opt_eq_none_of_isSome_false h1
  have g2 := opt_eq_none_of_isSome_false h2
  have g5 := opt_eq_none_of_isSome_false h5
  have g6 := opt_eq_none_of_isSome_false h6
  have g8 := opt_eq_none_of_isSome_false h8
  unfold convStep
  simp only [g1, g2, h3, h4, g5, g6, h7, g8, h9, h10, Bool.false_eq_true,
    if_false]

theorem convLoop_append (h : MpvHook) (m : SMap) :
    ∀ (xs ys : List Str) (st : ConvState),
      convLoop h m st (xs ++ ys) =
        match convLoop h m st xs with
        | .error e => .error e
        | .ok st' => convLoop h m st' ys := by
  intro xs
  induction xs with
  | nil => intro ys st; rfl
  | cons x rest ih =>
    intro ys st
    simp only [List.cons_append]
    conv_lhs => rw [convLoop]
    conv_rhs => rw [convLoop]
    cases hs : convStep h m st x with
    | error e => simp [hs]
    | ok st1 =>
      simp only [hs]
      exact ih ys st1

/-- C6: if the body of a convolution hook contains a line that is not a
recognized macro definition, entry point, accumulation, bias, return,
comment, or blank line, then translation always fails; and whenever the
lines before it all process successfully, the resulting error is exactly
the unexpected-line error carrying the pass's name and the offending
(trimmed) line. -/
theorem c6_unrecognized_line_fails (h : MpvHook) (m : SMap)
    (pre post : List Str) (l : Str) (hcode : h.code = pre ++ l :: post)
    (hrec : recognizedConvLine (trimChars l) = false) :
    (∃ e, convertConvHookCode h m = .error e) ∧
    (∀ st', convLoop h m ⟨headerLines h, []⟩ pre = .ok st' →
      convertConvHookCode h m =
        .error (.unexpectedLine h.name (trimChars l))) := by
  have hstep : ∀ st : ConvState,
      convStep h m st l = .error (.unexpectedLine h.name (trimChars l)) :=
    fun st => convStep_unrecognized hrec
  constructor
  · unfold convertConvHookCode
    rw [hcode, convLoop_append]
    cases hp : convLoop h m ⟨headerLines h, []⟩ pre with
    | error e => exact ⟨e, rfl⟩
    | ok st' =>
      refine ⟨.unexpectedLine h.name (trimChars l), ?_⟩
      unfold convLoop
      rw [hstep st']
  · intro st' hp
    unfold convertConvHookCode
    rw [hcode, convLoop_append, hp]
    unfold convLoop
    rw [hstep st']

/-- Concrete instantiation of C6: a body consisting of the stray GLSL
statement `float x = 1.0;` makes translation fail with the
unexpected-line error naming the pass and the line. -/
theorem c6_unrecognized_line_fails_witness :
    (∃ e, convertConvHookCode c6Hook newScaleFactorMap = .error e) ∧
    convertConvHookCode c6Hook newScaleFactorMap =
      .error (.unexpectedLine c6Hook.name (trimChars "float x = 1.0;".data)) :=
  ⟨(c6_unrecognized_line_fails c6Hook newScaleFactorMap [] []
      "float x = 1.0;".data rfl (by decide)).1,
    (c6_unrecognized_line_fails c6Hook newScaleFactorMap [] []
      "float x = 1.0;".data rfl (by decide)).2 _ rfl⟩

/-! The lifetime analysis (C5): the stable sort is the identity on the
already-ordered record list, each record's bounds are characterized, and
validated pipelines give one record per distinct identifier. -/

theorem sortByCreated_of_sorted :
    ∀ {l : List TextureLifetime},
      List.Pairwise (fun a b => a.created_at ≤ b.created_at) l →
      sortByCreated l = l := by
  intro l
  induction l with
  | nil => intro _; rfl
  | cons x xs ih =>
    intro h
    rw [List.pairwise_cons] at h
    simp only [sortByCreated]
    rw [ih h.2]
    cases xs with
    | nil => rfl
    | cons y ys =>
      simp [insertByCreated, h.1 y (by simp)]

theorem passLifetimes_created {i : Nat} {later : List Pass}
    {outs : List TextureOutput} :
    ∀ r ∈ passLifetimes i later outs, r.created_at = i := by
  intro r hr
  simp only [passLifetimes, List.mem_map] at hr
  obtain ⟨o, _, ho⟩ := hr
  rw [← ho]

theorem pairwise_of_const_created {l : List TextureLifetime} {i : Nat}
    (h : ∀ r ∈ l, r.created_at = i) :
    List.Pairwise (fun a b => a.created_at ≤ b.created_at) l := by
  induction l with
  | nil => exact List.Pairwise.nil
  | cons x xs ih =>
    refine List.Pairwise.cons ?_ (ih (fun r hr => h r (by simp [hr])))
    intro y hy
    rw [h x (by simp), h y (by simp [hy])]

theorem rawLifetimes_created_ge :
    ∀ (ps : List Pass) (i : Nat), ∀ r ∈ rawLifetimes i ps, i ≤ r.created_at := by
  intro ps
  induction ps with
  | nil => intro i r hr; simp [rawLifetimes] at hr
  | cons p rest ih =>
    intro i r hr
    simp only [rawLifetimes, List.mem_append] at hr
    rcases hr with h1 | h1
    · rw [passLifetimes_created r h1]
    · have := ih (i + 1) r h1
      omega

theorem rawLifetimes_sorted (ps : List Pass) :
    ∀ i, List.Pairwise (fun a b : TextureLifetime =>
      a.created_at ≤ b.created_at) (rawLifetimes i ps) := by
  induction ps with
  | nil => intro i; simp [rawLifetimes]
  | cons p rest ih =>
    intro i
    simp only [rawLifetimes]
    rw [List.pairwise_append]
    refine ⟨pairwise_of_const_created passLifetimes_created, ih (i + 1), ?_⟩
    intro a ha b hb
    rw [passLifetimes_created a ha]
    have := rawLifetimes_created_ge rest (i + 1) b hb
    omega

theorem collect_eq_raw (spec : PipelineSpec) :
    collectTextureLifetimes spec = rawLifetimes 0 spec.passes :=
  sortByCreated_of_sorted (rawLifetimes_sorted spec.passes 0)

theorem lastUseScan_shape :
    ∀ (later : List Pass) (id : Str) (d s : Nat),
      lastUseScan id d s later = d ∨
        ∃ k p, later[k]? = some p ∧ passReads p id = true ∧
          lastUseScan id d s later = s + k := by
  intro later
  induction later with
  | nil => intro id d s; exact Or.inl rfl
  | cons p rest ih =>
    intro id d s
    by_cases hr : passReads p id = true
    · simp only [lastUseScan, hr, if_true]
      rcases ih id s (s + 1) with h | ⟨k, q, hq, hqr, hv⟩
      · exact Or.inr ⟨0, p, by simp, hr, by omega⟩
      · exact Or.inr ⟨k + 1, q, by simpa using hq, hqr, by omega⟩
    · rw [Bool.not_eq_true] at hr
      simp only [lastUseScan, hr, Bool.false_eq_true, if_false]
      rcases ih id d (s + 1) with h | ⟨k, q, hq, hqr, hv⟩
      · exact Or.inl h
      · exact Or.inr ⟨k + 1, q, by simpa using hq, hqr, by omega⟩

theorem lastUseScan_ge_d (later : List Pass) (id : Str) (d s : Nat)
    (hds : d ≤ s) : d ≤ lastUseScan id d s later := by
  rcases lastUseScan_shape later id d s with h | ⟨k, q, _, _, hv⟩
  · omega
  · omega

theorem lastUseScan_ge_reader :
    ∀ (later : List Pass) (id : Str) (d s k : Nat) (p : Pass),
      later[k]? = some p → passReads p id = true →
      s + k ≤ lastUseScan id d s later := by
  intro later
  induction later with
  | nil => intro id d s k p hk; simp at hk
  | cons q rest ih =>
    intro id d s k p hk hr
    cases k with
    | zero =>
      simp at hk
      subst hk
      simp only [lastUseScan, hr, if_true]
      have := lastUseScan_ge_d rest id s (s + 1) (by omega)
      omega
    | succ k' =>
      simp only [List.getElem?_cons_succ] at hk
      by_cases hq : passReads q id = true
      · simp only [lastUseScan, hq, if_true]
        have := ih id s (s + 1) k' p hk hr
        omega
      · rw [Bool.not_eq_true] at hq
        simp only [lastUseScan, hq, Bool.false_eq_true, if_false]
        have := ih id d (s + 1) k' p hk hr
        omega

theorem rawLifetimes_mem :
    ∀ (ps : List Pass) (i : Nat) (r : TextureLifetime),
      r ∈ rawLifetimes i ps →
      ∃ k p o, ps[k]? = some p ∧ o ∈ p.outputs ∧ o.id ≠ "SOURCE".data ∧
        r = ⟨o.id, o.components, o.scale_factor, i + k,
          lastUseScan o.id (i + k) (i + k + 1) (ps.drop (k + 1))⟩ := by
  intro ps
  induction ps with
  | nil => intro i r hr; simp [rawLifetimes] at hr
  | cons p rest ih =>
    intro i r hr
    simp only [rawLifetimes, List.mem_append] at hr
    rcases hr with h1 | h1
    · simp only [passLifetimes, List.mem_map, List.mem_filter] at h1
      obtain ⟨o, ⟨ho, hns⟩, hr⟩ := h1
      refine ⟨0, p, o, by simp, ho, by simpa using hns, ?_⟩
      rw [← hr]
      simp
    · obtain ⟨k, q, o, hk, ho, hns, hr⟩ := ih (i + 1) r h1
      refine ⟨k + 1, q, o, by simpa using hk, ho, hns, ?_⟩
      rw [hr]
      have h1 : i + 1 + k = i + (k + 1) := by omega
      have h2 : i + 1 + k + 1 = i + (k + 1) + 1 := by omega
      simp [h1, h2]

theorem readsAt_true {spec : PipelineSpec} {j : Nat} {id : Str}
    (h : readsAt spec j id = true) :
    ∃ p, spec.passes[j]? = some p ∧ passReads p id = true := by
  unfold readsAt at h
  cases hj : spec.passes[j]? with
  | none => rw [hj] at h; simp at h
  | some p => rw [hj] at h; exact ⟨p, rfl, h⟩

theorem rawLifetimes_map_pairs :
    ∀ (ps : List Pass) (i : Nat),
      (rawLifetimes i ps).map (fun r => (r.logical_id, r.created_at)) =
        (List.enumFrom i ps).flatMap (fun ip =>
          (ip.2.outputs.filter (fun o => o.id ≠ "SOURCE".data)).map
            fun o => (o.id, ip.1)) := by
  intro ps
  induction ps with
  | nil => intro i; rfl
  | cons p rest ih =>
    intro i
    simp only [rawLifetimes, List.enumFrom, List.flatMap_cons, List.map_append,
      ih (i + 1), passLifetimes, List.map_map]
    rfl

theorem rawLifetimes_map_ids :
    ∀ (ps : List Pass) (i : Nat),
      (rawLifetimes i ps).map (fun r => r.logical_id) =
        ps.flatMap (fun p =>
          (p.outputs.filter (fun o => o.id ≠ "SOURCE".data)).map (·.id)) := by
  intro ps
  induction ps with
  | nil => intro i; rfl
  | cons p rest ih =>
    intro i
    simp only [rawLifetimes, List.flatMap_cons, List.map_append, ih (i + 1),
      passLifetimes, List.map_map]
    rfl

theorem validate_ok_parts {spec : PipelineSpec}
    (h : spec.validate = .ok ()) :
    validateInOut 0 spec.passes = .ok () ∧
    validateOverwrite ["SOURCE".data] 0 spec.passes = .ok () ∧
    validateInputsExist ["SOURCE".data] 0 spec.passes = .ok () := by
  unfold PipelineSpec.validate at h
  split at h
  · exact Except.noConfusion h
  · split at h
    · exact Except.noConfusion h
    · split at h
      · exact Except.noConfusion h
      · split at h
        · exact Except.noConfusion h
        · rename_i u hio
          split at h
          · exact Except.noConfusion h
          · split at h
            · exact Except.noConfusion h
            · split at h
              · exact Except.noConfusion h
              · rename_i u' hov
                cases u
                cases u'
                exact ⟨hio, hov, h⟩

theorem checkOverwrite_ok :
    ∀ (outs : List TextureOutput) (i : Nat) (created created' : List Str),
      checkOverwrite i created outs = .ok created' →
      (∀ o ∈ outs, ¬ o.id ∈ created) ∧ (outs.map (·.id)).Nodup ∧
      (∀ x, x ∈ created' ↔ x ∈ created ∨ x ∈ outs.map (·.id)) := by
  intro outs
  induction outs with
  | nil =>
    intro i created created' h
    simp only [checkOverwrite, Except.ok.injEq] at h
    subst h
    simp
  | cons o rest ih =>
    intro i created created' h
    unfold checkOverwrite at h
    split at h
    · exact Except.noConfusion h
    · rename_i hnc
      obtain ⟨h1, h2, h3⟩ := ih i (o.id :: created) created' h
      have hnm : ¬ o.id ∈ created := by
        intro hm
        exact hnc (by simpa using hm)
      refine ⟨?_, ?_, ?_⟩
      · intro o' ho'
        rcases List.mem_cons.mp ho' with he | he
        · subst he; exact hnm
        · intro hm
          exact absurd (by simp [hm] : o'.id ∈ o.id :: created) (h1 o' he)
      · simp only [List.map_cons, List.nodup_cons]
        refine ⟨?_, h2⟩
        intro hm
        simp only [List.mem_map] at hm
        obtain ⟨o', ho', he⟩ := hm
        exact absurd (by simp [he] : o'.id ∈ o.id :: created) (h1 o' ho')
      · intro x
        rw [h3 x]
        simp only [List.mem_cons, List.map_cons]
        constructor
        · rintro (⟨he | hm⟩ | hm)
          · exact Or.inr (by simp [he])
          · exact Or.inl hm
          · exact Or.inr (by simp [hm])
        · rintro (hm | hm)
          · exact Or.inl (Or.inr hm)
          · rcases hm with he | hm'
            · exact Or.inl (Or.inl he)
            · exact Or.inr hm'

theorem validateOverwrite_ok :
    ∀ (ps : List Pass) (i : Nat) (created : List Str),
      validateOverwrite created i ps = .ok () →
      (allOutputIds ps).Nodup ∧ ∀ x ∈ allOutputIds ps, ¬ x ∈ created := by
  intro ps
  induction ps with
  | nil => intro i created _; simp [allOutputIds]
  | cons p rest ih =>
    intro i created h
    unfold validateOverwrite at h
    simp only [bind, Except.bind] at h
    cases hc : checkOverwrite i created p.outputs with
    | error e => rw [hc] at h; exact Except.noConfusion h
    | ok created' =>
      rw [hc] at h
      obtain ⟨h1, h2, h3⟩ := checkOverwrite_ok p.outputs i created created' hc
      obtain ⟨ihn, ihd⟩ := ih (i + 1) created' h
      have hall : allOutputIds (p :: rest) =
          p.outputs.map (·.id) ++ allOutputIds rest := by
        simp [allOutputIds]
      rw [hall]
      constructor
      · refine List.Nodup.append h2 ihn ?_
        intro x hx1 hx2
        exact ihd x hx2 ((h3 x).mpr (Or.inr hx1))
      · intro x hx
        rcases List.mem_append.mp hx with hm | hm
        · simp only [List.mem_map] at hm
          obtain ⟨o, ho, he⟩ := hm
          rw [← he]
          exact fun hmm => h1 o ho hmm
        · intro hmm
          exact ihd x hm ((h3 x).mpr (Or.inl hmm))

theorem flatMap_filter_sublist (q : TextureOutput → Bool) :
    ∀ ps : List Pass,
      (ps.flatMap fun p => (p.outputs.filter q).map (·.id)).Sublist
        (allOutputIds ps) := by
  intro ps
  induction ps with
  | nil => simp [allOutputIds]
  | cons p rest ih =>
    have hall : allOutputIds (p :: rest) =
        p.outputs.map (·.id) ++ allOutputIds rest := by
      simp [allOutputIds]
    rw [hall]
    simp only [List.flatMap_cons]
    exact List.Sublist.append (List.Sublist.map (·.id) p.outputs.filter_sublist) ih

/-- C5 (amended): the lifetime analysis produces exactly one record per
non-SOURCE output occurrence (pass, output binding), in pass order — not
per distinct identifier, since an identifier produced twice yields two
records; each record's `created_at` is the producing pass index; each
record's `last_used_at` is the greatest later pass index reading the
identifier, defaulting to `created_at`; the list is sorted by
`created_at`; and for specifications accepted by `validate` (where no
identifier is produced twice) the records' identifiers are pairwise
distinct, giving exactly one record per distinct identifier. -/
theorem c5_lifetime_analysis (spec : PipelineSpec) :
    ((collectTextureLifetimes spec).map
      (fun r => (r.logical_id, r.created_at)) = outputOccurrences spec) ∧
    ((collectTextureLifetimes spec).map (fun r => r.logical_id) =
      occIds spec) ∧
    (∀ r ∈ collectTextureLifetimes spec,
      isLastUse spec r.created_at r.logical_id r.last_used_at) ∧
    List.Pairwise (fun a b : TextureLifetime =>
      a.created_at ≤ b.created_at) (collectTextureLifetimes spec) ∧
    (spec.validate = .ok () →
      ((collectTextureLifetimes spec).map (fun r => r.logical_id)).Nodup) := by
  have hcr := collect_eq_raw spec
  refine ⟨?_, ?_, ?_, ?_, ?_⟩
  · rw [hcr, rawLifetimes_map_pairs]
    rfl
  · rw [hcr, rawLifetimes_map_ids]
    rfl
  · intro r hr
    rw [hcr] at hr
    obtain ⟨k, p, o, hk, ho, hns, hre⟩ := rawLifetimes_mem spec.passes 0 r hr
    subst hre
    simp only []
    have hk0 : (0 : Nat) + k = k := by omega
    rw [hk0]
    refine ⟨?_, ?_, ?_⟩
    · rcases lastUseScan_shape (spec.passes.drop (k + 1)) o.id k (k + 1)
        with h | ⟨k2, q, _, _, hv⟩
      · omega
      · omega
    · rcases lastUseScan_shape (spec.passes.drop (k + 1)) o.id k (k + 1)
        with h | ⟨k2, q, hq, hqr, hv⟩
      · exact Or.inl h
      · refine Or.inr ?_
        rw [hv]
        unfold readsAt
        rw [List.getElem?_drop] at hq
        have : k + 1 + k2 = k + 1 + k2 := rfl
        rw [hq]
        exact hqr
    · intro j hj hreads hcj
      obtain ⟨pj, hpj, hpr⟩ := readsAt_true hreads
      have hk3 : j = (k + 1) + (j - (k + 1)) := by omega
      have hdj : (spec.passes.drop (k + 1))[j - (k + 1)]? = some pj := by
        rw [List.getElem?_drop, ← hk3]
        exact hpj
      have := lastUseScan_ge_reader (spec.passes.drop (k + 1)) o.id k (k + 1)
        (j - (k + 1)) pj hdj hpr
      omega
  · rw [hcr]
    exact rawLifetimes_sorted spec.passes 0
  · intro hval
    rw [hcr, rawLifetimes_map_ids]
    obtain ⟨-, hov, -⟩ := validate_ok_parts hval
    obtain ⟨hnd, -⟩ := validateOverwrite_ok spec.passes 0 ["SOURCE".data] hov
    exact hnd.sublist (flatMap_filter_sublist _ spec.passes)

/-- C5 counterexample: for the claim as stated (one record per distinct
non-SOURCE identifier), the single-pass pipeline `c5CexSpec`, whose pass
writes the identifier `X` on two bindings, yields two lifetime records
for the one distinct identifier `X`. -/
theorem c5_lifetime_analysis_counterexample :
    (collectTextureLifetimes c5CexSpec).map (fun r => r.logical_id) =
      ["X".data, "X".data] := by
  decide

/-- Concrete instantiation of the last-use characterization of C5 at the
two-pass pipeline `c7Spec`, whose intermediate texture `T1` is created by
pass 0 and last read by pass 1. -/
theorem c5_lifetime_analysis_witness :
    ∀ r ∈ collectTextureLifetimes c7Spec,
      isLastUse c7Spec r.created_at r.logical_id r.last_used_at :=
  (c5_lifetime_analysis c7Spec).2.2.1

/-- Concrete instantiation of C4 at the hook `c4CexHook` (whose shader
code is empty, so the generated lines are exactly the header block). -/
theorem c4_conv_binding_layout_witness :
    ∃ rest, headerLines c4CexHook = headerCommentLines c4CexHook ++
      inputDeclLines c4CexHook.inputs ++ [outputDeclLine c4CexHook] ++
      (if c4CexHook.needs_sampler then [samplerDeclLine c4CexHook] else []) ++
      ["".data] ++ rest :=
  c4_conv_binding_layout.1 c4CexHook c4CexMap (headerLines c4CexHook) rfl

/-! The compiler proper (C3 and C7): the allocator assignment map covers
SOURCE and every lifetime, pass building panics exactly on missing keys or
empty outputs, and the loader call log is characterized. -/

theorem allocStep_assignments (st : AllocState) (lt : TextureLifetime) :
    ∃ v, (allocStep st lt).1.assignments =
      mapIns st.assignments lt.logical_id v := by
  unfold allocStep
  cases findSlot lt st.slots with
  | none => exact ⟨st.slots.length, rfl⟩
  | some q => exact ⟨q.1, rfl⟩

theorem allocLoop_assignments_mem :
    ∀ (lts : List TextureLifetime) (st : AllocState) (k : Str),
      ((∃ v, mapGet st.assignments k = some v) ∨
        k ∈ lts.map (fun lt => lt.logical_id)) →
      ∃ v, mapGet (allocLoop st lts).1.assignments k = some v := by
  intro lts
  induction lts with
  | nil =>
    intro st k h
    rcases h with h | h
    · exact h
    · simp at h
  | cons lt rest ih =>
    intro st k h
    show ∃ v, mapGet (allocLoop (allocStep st lt).1 rest).1.assignments k =
      some v
    obtain ⟨w, hw⟩ := allocStep_assignments st lt
    rcases h with ⟨v, hv⟩ | hmem
    · refine ih _ k (Or.inl ?_)
      rw [hw, mapGet_ins]
      by_cases hk : k = lt.logical_id
      · exact ⟨w, by rw [if_pos hk]⟩
      · exact ⟨v, by rw [if_neg hk]; exact hv⟩
    · simp only [List.map_cons, List.mem_cons] at hmem
      rcases hmem with he | hmem
      · refine ih _ k (Or.inl ?_)
        rw [hw, mapGet_ins, if_pos he]
        exact ⟨w, rfl⟩
      · exact ih _ k (Or.inr hmem)

theorem compileAssigns_key (spec : PipelineSpec) (k : Str)
    (hk : k = "SOURCE".data ∨
      k ∈ spec.passes.flatMap (fun p =>
        (p.outputs.filter (fun o => o.id ≠ "SOURCE".data)).map (·.id))) :
    ∃ v, mapGet
      (assignPhysicalTextures (collectTextureLifetimes spec)).2 k = some v := by
  show ∃ v, mapGet
    (allocLoop allocInit (collectTextureLifetimes spec)).1.assignments k =
      some v
  rcases hk with he | hmem
  · subst he
    exact allocLoop_assignments_mem (collectTextureLifetimes spec) allocInit
      "SOURCE".data (Or.inl ⟨sourceTextureId, by decide⟩)
  · refine allocLoop_assignments_mem (collectTextureLifetimes spec) allocInit
      k (Or.inr ?_)
    rw [collect_eq_raw spec, rawLifetimes_map_ids]
    exact hmem

theorem resolveInputs_some (passes : List Pass) (assigns : SMap) :
    ∀ l : List TextureBindingSpec,
      (∀ inp ∈ l, ∃ v, mapGet assigns inp.id = some v) →
      ∃ ins, resolveInputs passes assigns l = some ins := by
  intro l
  induction l with
  | nil => intro _; exact ⟨[], rfl⟩
  | cons inp rest ih =>
    intro h
    obtain ⟨v, hv⟩ := h inp (List.mem_cons_self _ _)
    obtain ⟨tail, htail⟩ := ih (fun i hi => h i (List.mem_cons_of_mem _ hi))
    refine ⟨⟨inp.id, v, inp.binding, (findPhysicalTextureInfo passes inp.id).1,
        (findPhysicalTextureInfo passes inp.id).2⟩ :: tail, ?_⟩
    unfold resolveInputs
    rw [hv, htail]
    rfl

theorem resolveOutputs_some (assigns : SMap) :
    ∀ l : List TextureOutput,
      (∀ o ∈ l, ∃ v, mapGet assigns o.id = some v) →
      ∃ outs, resolveOutputs assigns l = some outs := by
  intro l
  induction l with
  | nil => intro _; exact ⟨[], rfl⟩
  | cons o rest ih =>
    intro h
    obtain ⟨v, hv⟩ := h o (List.mem_cons_self _ _)
    obtain ⟨tail, htail⟩ := ih (fun i hi => h i (List.mem_cons_of_mem _ hi))
    refine ⟨⟨o.id, v, o.binding, o.components, o.scale_factor⟩ :: tail, ?_⟩
    unfold resolveOutputs
    rw [hv, htail]
    rfl

theorem buildPass_cases {ε : Type} (passes : List Pass) (assigns : SMap)
    (loader : Str → Except ε Str) (p : Pass) :
    buildPass passes assigns loader p = (.error .panic, []) ∨
    (∃ e, loader p.file = .error e ∧
      buildPass passes assigns loader p = (.error (.io e), [p.file])) ∨
    (∃ ep, buildPass passes assigns loader p = (.ok ep, [p.file])) := by
  unfold buildPass
  cases resolveInputs passes assigns p.inputs with
  | none => exact Or.inl rfl
  | some ins =>
    cases resolveOutputs assigns p.outputs with
    | none => exact Or.inl rfl
    | some outs =>
      cases p.outputs.head? with
      | none => exact Or.inl rfl
      | some o0 =>
        cases loader p.file with
        | error e => exact Or.inr (Or.inl ⟨e, rfl, rfl⟩)
        | ok sh => exact Or.inr (Or.inr ⟨_, rfl⟩)

theorem buildPass_shape {ε : Type} (passes : List Pass) (assigns : SMap)
    (loader : Str → Except ε Str) (p : Pass)
    (hne : p.outputs ≠ [])
    (hin : ∀ inp ∈ p.inputs, ∃ v, mapGet assigns inp.id = some v)
    (hout : ∀ o ∈ p.outputs, ∃ v, mapGet assigns o.id = some v) :
    (∃ ep, buildPass passes assigns loader p = (.ok ep, [p.file])) ∨
    (∃ e, buildPass passes assigns loader p = (.error (.io e), [p.file])) := by
  obtain ⟨ins, hins⟩ := resolveInputs_some passes assigns p.inputs hin
  obtain ⟨outs, houts⟩ := resolveOutputs_some assigns p.outputs hout
  unfold buildPass
  rw [hins, houts]
  cases hpo : p.outputs with
  | nil => exact absurd hpo hne
  | cons o0 os =>
    cases hl : loader p.file with
    | error e => exact Or.inr ⟨e, rfl⟩
    | ok sh => exact Or.inl ⟨_, rfl⟩

theorem buildPasses_cons_ok {ε : Type} {passes : List Pass} {assigns : SMap}
    {loader : Str → Except ε Str} {p : Pass} {rest : List Pass}
    {ep : ExecutablePass} {log : List Str}
    (hbp : buildPass passes assigns loader p = (.ok ep, log)) :
    buildPasses passes assigns loader (p :: rest) =
      ((buildPasses passes assigns loader rest).1.map (ep :: ·),
        log ++ (buildPasses passes assigns loader rest).2) := by
  conv_lhs => unfold buildPasses
  rw [hbp]

theorem buildPasses_cons_err {ε : Type} {passes : List Pass} {assigns : SMap}
    {loader : Str → Except ε Str} {p : Pass} {rest : List Pass}
    {e : CompileErr ε} {log : List Str}
    (hbp : buildPass passes assigns loader p = (.error e, log)) :
    buildPasses passes assigns loader (p :: rest) = (.error e, log) := by
  unfold buildPasses
  rw [hbp]

theorem buildPasses_log {ε : Type} (passes : List Pass) (assigns : SMap)
    (loader : Str → Except ε Str) :
    ∀ l : List Pass,
      (∀ eps, (buildPasses passes assigns loader l).1 = .ok eps →
        (buildPasses passes assigns loader l).2 = l.map (fun p => p.file)) ∧
      (∀ e, (buildPasses passes assigns loader l).1 = .error (.io e) →
        ∃ pre q post, l = pre ++ q :: post ∧ loader q.file = .error e ∧
          (buildPasses passes assigns loader l).2 =
            (pre ++ [q]).map (fun p => p.file)) := by
  intro l
  induction l with
  | nil =>
    constructor
    · intro eps _
      rfl
    · intro e h
      exact absurd h (by simp [buildPasses])
  | cons p rest ih =>
    rcases buildPass_cases passes assigns loader p with
      hbp | ⟨e0, hl, hbp⟩ | ⟨ep, hbp⟩
    · rw [buildPasses_cons_err hbp]
      constructor
      · intro eps h
        exact absurd h (by simp)
      · intro e h
        simp at h
    · rw [buildPasses_cons_err hbp]
      constructor
      · intro eps h
        exact absurd h (by simp)
      · intro e h
        simp at h
        subst h
        exact ⟨[], p, rest, rfl, hl, rfl⟩
    · rw [buildPasses_cons_ok hbp]
      constructor
      · intro eps h
        cases hr : (buildPasses passes assigns loader rest).1 with
        | error e2 =>
          rw [hr] at h
          simp [Except.map] at h
        | ok eps2 =>
          have h2 := ih.1 eps2 hr
          show [p.file] ++ (buildPasses passes assigns loader rest).2 = _
          rw [h2]
          rfl
      · intro e h
        cases hr : (buildPasses passes assigns loader rest).1 with
        | ok eps2 =>
          rw [hr] at h
          simp [Except.map] at h
        | error e2 =>
          rw [hr] at h
          simp [Except.map] at h
          obtain ⟨pre, q, post, hsp, hlq, hlog⟩ := ih.2 e (by rw [hr, h])
          refine ⟨p :: pre, q, post, by rw [hsp, List.cons_append], hlq, ?_⟩
          show [p.file] ++ (buildPasses passes assigns loader rest).2 = _
          rw [hlog]
          rfl

theorem buildPasses_not_panic {ε : Type} (passes : List Pass) (assigns : SMap)
    (loader : Str → Except ε Str) :
    ∀ l : List Pass,
      (∀ p ∈ l, p.outputs ≠ [] ∧
        (∀ inp ∈ p.inputs, ∃ v, mapGet assigns inp.id = some v) ∧
        (∀ o ∈ p.outputs, ∃ v, mapGet assigns o.id = some v)) →
      (buildPasses passes assigns loader l).1 ≠ .error .panic := by
  intro l
  induction l with
  | nil =>
    intro _ h
    exact absurd h (by simp [buildPasses])
  | cons p rest ih =>
    intro hall h
    obtain ⟨hne, hin, hout⟩ := hall p (List.mem_cons_self _ _)
    rcases buildPass_shape passes assigns loader p hne hin hout with
      ⟨ep, hbp⟩ | ⟨e, hbp⟩
    · rw [buildPasses_cons_ok hbp] at h
      cases hr : (buildPasses passes assigns loader rest).1 with
      | ok eps =>
        rw [hr] at h
        simp [Except.map] at h
      | error e2 =>
        rw [hr] at h
        simp [Except.map] at h
        exact ih (fun q hq => hall q (List.mem_cons_of_mem _ hq))
          (by rw [hr, h])
    · rw [buildPasses_cons_err hbp] at h
      simp at h

theorem compileWithLog_err {ε : Type} {spec : PipelineSpec}
    {loader : Str → Except ε Str} {e : CompileErr ε} {log : List Str}
    (h : buildPasses spec.passes
        (assignPhysicalTextures (collectTextureLifetimes spec)).2 loader
        spec.passes = (.error e, log)) :
    compileWithLog spec loader = (.error e, log) := by
  simp only [compileWithLog]
  rw [h]

theorem compileWithLog_ok {ε : Type} {spec : PipelineSpec}
    {loader : Str → Except ε Str} {eps : List ExecutablePass} {log : List Str}
    (h : buildPasses spec.passes
        (assignPhysicalTextures (collectTextureLifetimes spec)).2 loader
        spec.passes = (.ok eps, log)) :
    compileWithLog spec loader =
      (.ok ⟨spec.id, spec.name, spec.description,
          (assignPhysicalTextures (collectTextureLifetimes spec)).1, eps,
          requiredSamplers spec⟩, log) := by
  simp only [compileWithLog]
  rw [h]

theorem compile_eq_fst {ε : Type} (spec : PipelineSpec)
    (loader : Str → Except ε Str) :
    spec.compile loader = (compileWithLog spec loader).1 := rfl

theorem validateInOut_ok :
    ∀ (ps : List Pass) (i : Nat), validateInOut i ps = .ok () →
      ∀ p ∈ ps, p.outputs ≠ [] := by
  intro ps
  induction ps with
  | nil =>
    intro i _ p hp
    exact absurd hp (List.not_mem_nil p)
  | cons q rest ih =>
    intro i h p hp
    unfold validateInOut at h
    split at h
    · exact Except.noConfusion h
    · split at h
      · exact Except.noConfusion h
      · rename_i h1 h2
        rcases List.mem_cons.mp hp with he | hm
        · subst he
          intro hnil
          exact h2 (by simp [hnil])
        · exact ih (i + 1) h p hm

theorem validateInputsExist_ok :
    ∀ (ps : List Pass) (available : List Str) (i : Nat),
      validateInputsExist available i ps = .ok () →
      ∀ p ∈ ps, ∀ inp ∈ p.inputs,
        inp.id ∈ available ∨ inp.id ∈ allOutputIds ps := by
  intro ps
  induction ps with
  | nil =>
    intro a i _ p hp
    exact absurd hp (List.not_mem_nil p)
  | cons q rest ih =>
    intro a i h p hp inp hinp
    have hall : allOutputIds (q :: rest) =
        q.outputs.map (·.id) ++ allOutputIds rest := by
      simp [allOutputIds]
    unfold validateInputsExist at h
    split at h
    · exact Except.noConfusion h
    · rename_i hf
      rcases List.mem_cons.mp hp with he | hm
      · subst he
        have hc := List.find?_eq_none.mp hf inp hinp
        simp at hc
        exact Or.inl hc
      · rcases ih _ _ h p hm inp hinp with hmem | hmem
        · rcases List.mem_append.mp hmem with hm1 | hm2
          · right
            rw [hall]
            exact List.mem_append.mpr (Or.inl hm1)
          · exact Or.inl hm2
        · right
          rw [hall]
          exact List.mem_append.mpr (Or.inr hmem)

theorem output_mem_occ {ps : List Pass} {p : Pass} {o : TextureOutput}
    (hp : p ∈ ps) (ho : o ∈ p.outputs) :
    o.id = "SOURCE".data ∨
      o.id ∈ ps.flatMap (fun p =>
        (p.outputs.filter (fun o => o.id ≠ "SOURCE".data)).map (·.id)) := by
  by_cases hs : o.id = "SOURCE".data
  · exact Or.inl hs
  · right
    refine List.mem_flatMap.mpr ⟨p, hp, ?_⟩
    refine List.mem_map.mpr ⟨o, ?_, rfl⟩
    refine List.mem_filter.mpr ⟨ho, ?_⟩
    simp [hs]

theorem mem_allOutputIds_cases {ps : List Pass} {x : Str}
    (hx : x ∈ allOutputIds ps) :
    x = "SOURCE".data ∨
      x ∈ ps.flatMap (fun p =>
        (p.outputs.filter (fun o => o.id ≠ "SOURCE".data)).map (·.id)) := by
  rcases List.mem_flatMap.mp hx with ⟨p, hp, hxo⟩
  rcases List.mem_map.mp hxo with ⟨o, ho, he⟩
  subst he
  exact output_mem_occ hp ho

/-- C3 (amended): the compiler never calls `validate`, and a pass input
naming an identifier that no pass produces and that is not SOURCE does
cause an unkeyed assignment-map lookup (a Rust panic, the untyped
outcome the claim rules out); however, for every specification that
`validate` accepts, compilation is typed: it returns a compiled pipeline
or propagates the loader's error, and never reaches the panic outcome. -/
theorem c3_compile_typed {ε : Type} (spec : PipelineSpec)
    (loader : Str → Except ε Str) (hval : spec.validate = .ok ()) :
    (∃ ep, spec.compile loader = .ok ep) ∨
    (∃ e, spec.compile loader = .error (.io e)) := by
  obtain ⟨hio, hov, hex⟩ := validate_ok_parts hval
  have hcond : ∀ p ∈ spec.passes, p.outputs ≠ [] ∧
      (∀ inp ∈ p.inputs, ∃ v, mapGet
        (assignPhysicalTextures (collectTextureLifetimes spec)).2 inp.id =
          some v) ∧
      (∀ o ∈ p.outputs, ∃ v, mapGet
        (assignPhysicalTextures (collectTextureLifetimes spec)).2 o.id =
          some v) := by
    intro p hp
    refine ⟨validateInOut_ok spec.passes 0 hio p hp, ?_, ?_⟩
    · intro inp hinp
      rcases validateInputsExist_ok spec.passes ["SOURCE".data] 0 hex p hp
          inp hinp with hm | hm
      · refine compileAssigns_key spec inp.id (Or.inl ?_)
        simpa using hm
      · exact compileAssigns_key spec inp.id (mem_allOutputIds_cases hm)
    · intro o ho
      exact compileAssigns_key spec o.id (output_mem_occ hp ho)
  have hnp := buildPasses_not_panic spec.passes
    (assignPhysicalTextures (collectTextureLifetimes spec)).2 loader
    spec.passes hcond
  cases hb : buildPasses spec.passes
      (assignPhysicalTextures (collectTextureLifetimes spec)).2 loader
      spec.passes with
  | mk r log =>
    cases r with
    | ok eps =>
      exact Or.inl ⟨_, by rw [compile_eq_fst, compileWithLog_ok hb]⟩
    | error e =>
      cases e with
      | panic => exact absurd (by rw [hb]) hnp
      | io e0 =>
        exact Or.inr ⟨e0, by rw [compile_eq_fst, compileWithLog_err hb]⟩

/-- C3 counterexample: the pipeline `c3CexSpec` reads the never-produced
identifier `FOO`; `validate` rejects it with a typed error, but `compile`
(which never validates) reaches the unkeyed map lookup and panics. -/
theorem c3_compile_typed_counterexample :
    c3CexSpec.validate = .error (.inputTextureNotFound 0 "FOO".data) ∧
    PipelineSpec.compile c3CexSpec okLoader = .error .panic :=
  ⟨rfl, rfl⟩

/-- Concrete instantiation of C3 at the validated two-pass pipeline
`c7Spec` with the always-succeeding loader. -/
theorem c3_compile_typed_witness :
    c7Spec.validate = .ok () ∧
    ((∃ ep, PipelineSpec.compile c7Spec okLoader = .ok ep) ∨
      (∃ e, PipelineSpec.compile c7Spec okLoader = .error (.io e))) :=
  ⟨rfl, c3_compile_typed c7Spec okLoader rfl⟩

/-- C7 (amended): the compiler invokes the loader once per pass in pass
order (the call log of a successful compile is exactly the per-pass file
list, and a loader failure truncates it after the failing pass), and a
loader failure aborts the whole compile with an error and no pipeline;
however, the propagated error is the loader's raw error value, which
carries neither the failing pass's id nor the filename. -/
theorem c7_loader_error_handling {ε : Type} (spec : PipelineSpec)
    (loader : Str → Except ε Str) :
    (∀ ep, (compileWithLog spec loader).1 = .ok ep →
      (compileWithLog spec loader).2 = spec.passes.map (fun p => p.file)) ∧
    (∀ e, (compileWithLog spec loader).1 = .error (.io e) →
      spec.compile loader = .error (.io e) ∧
      ∃ pre q post, spec.passes = pre ++ q :: post ∧
        loader q.file = .error e ∧
        (compileWithLog spec loader).2 = (pre ++ [q]).map (fun p => p.file)) := by
  cases hb : buildPasses spec.passes
      (assignPhysicalTextures (collectTextureLifetimes spec)).2 loader
      spec.passes with
  | mk r log =>
    cases r with
    | error e =>
      have heq := compileWithLog_err hb
      constructor
      · intro ep h
        rw [heq] at h
        exact absurd h (by simp)
      · intro e0 h
        rw [heq] at h
        simp at h
        subst h
        refine ⟨by rw [compile_eq_fst, heq], ?_⟩
        obtain ⟨pre, q, post, hsp, hlq, hlog⟩ :=
          (buildPasses_log spec.passes
            (assignPhysicalTextures (collectTextureLifetimes spec)).2 loader
            spec.passes).2 e0 (by rw [hb])
        refine ⟨pre, q, post, hsp, hlq, ?_⟩
        rw [heq]
        rw [hb] at hlog
        exact hlog
    | ok eps =>
      have heq := compileWithLog_ok hb
      constructor
      · intro ep h
        have hlog := (buildPasses_log spec.passes
          (assignPhysicalTextures (collectTextureLifetimes spec)).2 loader
          spec.passes).1 eps (by rw [hb])
        rw [heq]
        rw [hb] at hlog
        exact hlog
      · intro e0 h
        rw [heq] at h
        exact absurd h (by simp)

/-- C7 counterexample: two loaders that fail at different passes and
different filenames make the compile return identical errors, so the
compile error identifies neither the failing pass nor the file. -/
theorem c7_loader_error_counterexample :
    c7Loader1 "b.wgsl".data = .error "oops".data ∧
    c7Loader2 "a.wgsl".data = .error "oops".data ∧
    c7Loader1 "a.wgsl".data = .ok "code".data ∧
    PipelineSpec.compile c7Spec c7Loader1 =
      PipelineSpec.compile c7Spec c7Loader2 :=
  ⟨rfl, rfl, rfl, rfl⟩

/-- Concrete instantiation of C7 at `c7Spec` with the loader that fails on
the second pass's file. -/
theorem c7_loader_error_handling_witness :
    PipelineSpec.compile c7Spec c7Loader1 = .error (.io "oops".data) ∧
    ∃ pre q post, c7Spec.passes = pre ++ q :: post ∧
      c7Loader1 q.file = .error "oops".data ∧
      (compileWithLog c7Spec c7Loader1).2 =
        (pre ++ [q]).map (fun p => p.file) :=
  (c7_loader_error_handling c7Spec c7Loader1).2 "oops".data rfl

end A4K
